import Mathlib

/-!
Verification of the consistency-and-approval engine of archweb
(src/packages/utils.py): the group aggregator (get_group_info), the
cross-architecture difference detector (get_differences_info) and the
signoff quorum / grouping logic (approved_by_signoffs,
PackageSignoffGroup, get_signoff_groups).

External collaborators (the ORM, the signoff-specification resolver, the
maintainer lookup) are passed in as explicit data or functions.  Python
dicts are embedded as association lists keyed by strings; dict update
preserves the position of an existing key and appends a fresh one, which
matches CPython insertion semantics (only lookups and the final sorted
flattening are observable anyway).
-/

namespace Archweb

/-- Association-list lookup, first binding of the key wins (Python dict
lookup; keys are unique in every dict the code builds). -/
def alLookup {β : Type} : List (String × β) → String → Option β
  | [], _ => none
  | (k, v) :: rest, k' => if k = k' then some v else alLookup rest k'

/-- Association-list update: replace the binding in place when the key is
present, append it otherwise (Python dict assignment). -/
def alUpdate {β : Type} : List (String × β) → String → β → List (String × β)
  | [], k, v => [(k, v)]
  | (k1, v1) :: rest, k, v =>
      if k1 = k then (k, v) :: rest else (k1, v1) :: alUpdate rest k v

/-- Association-list key removal (Python del). -/
def alErase {β : Type} (m : List (String × β)) (k : String) : List (String × β) :=
  m.filter (fun p => decide (p.1 ≠ k))

/-! ## GroupAggregator: get_group_info -/

/-- One row of the aggregated group listing: the raw input rows
(name, pkg arch name, count, max last_update) use the same shape as the
per-arch dictionaries the function builds from them. -/
structure GroupEntry where
  name : String
  arch : String
  count : Nat
  last_update : Nat
deriving DecidableEq, Repr

/-- First loop of get_group_info: bucket the raw rows into
group_mapping : arch name -> (group name -> entry), via
setdefault followed by inner dict assignment. -/
def bucketRows : List GroupEntry → List (String × List (String × GroupEntry)) →
    List (String × List (String × GroupEntry))
  | [], m => m
  | grp :: rest, m =>
      bucketRows rest
        (alUpdate m grp.arch (alUpdate ((alLookup m grp.arch).getD []) grp.name grp))

/-- Inner loop of the any-promotion step: fold every entry of the any
bucket into one concrete architecture bucket, adding counts and taking the
later timestamp when the group already exists there, otherwise inserting a
copy with its arch field overridden. -/
def mergeAnyInto (anyGroups : List (String × GroupEntry)) (arch : String)
    (archGroups : List (String × GroupEntry)) : List (String × GroupEntry) :=
  anyGroups.foldl
    (fun ag pair =>
      let grp := pair.2
      match alLookup ag grp.name with
      | some found =>
          alUpdate ag grp.name
            { found with
              count := found.count + grp.count,
              last_update :=
                if found.last_update < grp.last_update then grp.last_update
                else found.last_update }
      | none => alUpdate ag grp.name { grp with arch := arch })
    archGroups

/-- The any-promotion step of get_group_info: when an any bucket exists,
delete it and fold it into every remaining architecture bucket. -/
def promoteAny (m : List (String × List (String × GroupEntry))) :
    List (String × List (String × GroupEntry)) :=
  match alLookup m "any" with
  | none => m
  | some anyGroups =>
      (alErase m "any").map (fun p => (p.1, mergeAnyInto anyGroups p.1 p.2))

/-- The include_arches filter: include everything when the argument is
None or an empty (falsy) list, otherwise only listed architectures. -/
def includePass (include_arches : Option (List String)) (key : String) : Bool :=
  match include_arches with
  | none => true
  | some l => l.isEmpty || l.contains key

/-- Final sort key of get_group_info: lexicographic on (name, arch). -/
def groupLE (a b : GroupEntry) : Prop :=
  a.name < b.name ∨ (a.name = b.name ∧ a.arch ≤ b.arch)

instance : DecidableRel groupLE := fun a b => by
  unfold groupLE; infer_instance

/-- The flattening loop of get_group_info: walk the arch buckets, keeping
those that pass the include_arches filter, and collect their entries. -/
def flattenGroups (include_arches : Option (List String))
    (m : List (String × List (String × GroupEntry))) : List GroupEntry :=
  m.foldl
    (fun acc p =>
      if includePass include_arches p.1 then acc ++ p.2.map Prod.snd else acc) []

/-- get_group_info: bucket the raw rows per architecture, promote the any
bucket into every concrete architecture, then flatten (restricted to
include_arches when given) and sort by (name, arch). -/
def get_group_info (include_arches : Option (List String))
    (raw_groups : List GroupEntry) : List GroupEntry :=
  List.insertionSort groupLE
    (flattenGroups include_arches (promoteAny (bucketRows raw_groups [])))

/-- Composite lookup into the arch to (name to entry) mapping, used to
state properties of the bucketing pass. -/
def lookup2 (m : List (String × List (String × GroupEntry))) (a n : String) :
    Option GroupEntry :=
  (alLookup m a).bind (fun ag => alLookup ag n)

/-- Well-formedness of the arch to (name to entry) mapping the aggregator
builds: outer keys are distinct, inner keys are distinct, every inner
binding is keyed by its entry name, and every entry carries the arch of
its bucket. -/
def groupMapWF (m : List (String × List (String × GroupEntry))) : Prop :=
  (m.map Prod.fst).Nodup ∧ ∀ q ∈ m, (q.2.map Prod.fst).Nodup ∧
    ∀ p ∈ q.2, p.1 = p.2.name ∧ p.2.arch = q.1

/-! ## DifferenceDetector: get_differences_info -/

structure Arch where
  id : Nat
  name : String
deriving DecidableEq, Repr

structure Repo where
  id : Nat
  name : String
deriving DecidableEq, Repr

/-- A package record as consumed by the engine.  full_version stands for
the derived epoch:pkgver-pkgrel string the models expose and is only ever
compared for equality. -/
structure Package where
  id : Nat
  pkgname : String
  pkgbase : String
  repo : Repo
  arch : Arch
  pkgver : String
  pkgrel : String
  epoch : Nat
  full_version : String
  last_update : Nat
  packager : Nat
deriving DecidableEq, Repr

structure Difference where
  pkgname : String
  repo : Repo
  pkg_a : Option Package
  pkg_b : Option Package
deriving DecidableEq, Repr

/-- The ON clause of the self left join: same pkgname and repo, a
different architecture and a different row. -/
def joinCond (p q : Package) : Bool :=
  decide (q.pkgname = p.pkgname ∧ q.repo.id = p.repo.id ∧
          q.arch.id ≠ p.arch.id ∧ q.id ≠ p.id)

/-- The version part of the WHERE clause: the (pkgver, pkgrel, epoch)
triple differs. -/
def versionDiffers (p q : Package) : Bool :=
  decide (p.pkgver ≠ q.pkgver ∨ p.pkgrel ≠ q.pkgrel ∨ p.epoch ≠ q.epoch)

/-- Rows the raw SQL emits for one left-hand package p: the single
(p.id, NULL) row when no package joins, otherwise one (p.id, q.id) row per
joined q whose version triple differs. -/
def pkgRows (db : List Package) (p : Package) : List (Nat × Option Nat) :=
  let ms := db.filter (fun q => joinCond p q)
  if ms.isEmpty then [(p.id, none)]
  else (ms.filter (fun q => versionDiffers p q)).map (fun q => (p.id, some q.id))

/-- The full result set of the raw SQL of get_differences_info over a
database snapshot: left-hand rows restricted to the two architectures. -/
def sqlRows (db : List Package) (arch_a arch_b : Arch) : List (Nat × Option Nat) :=
  (db.filter (fun p => decide (p.arch.id = arch_a.id ∨ p.arch.id = arch_b.id))).flatMap
    (pkgRows db)

/-- Package.objects.normal().in_bulk(to_fetch) followed by dict.get: only
ids that were requested and exist in the database resolve. -/
def in_bulk (db : List Package) (ids : List Nat) : Nat → Option Package :=
  fun i => if i ∈ ids then db.find? (fun p => decide (p.id = i)) else none

/-- The orientation step of the loop body: arch_a must end up first.  The
guard dereferences pkg_a unconditionally, so a missing first record raises
AttributeError; in the swap branch pkg_a is known non-null, hence the
fallback expressions (pkg_a.pkgname if pkg_a else pkg_b.pkgname, likewise
for repo) always take the pkg_a side. -/
def buildDifference (arch_a : Arch) (pkg_a pkg_b : Option Package) :
    Except String Difference :=
  match pkg_a with
  | none => Except.error "AttributeError: NoneType object has no attribute arch"
  | some pa =>
      if pa.arch = arch_a then
        Except.ok ⟨pa.pkgname, pa.repo, some pa, pkg_b⟩
      else
        Except.ok ⟨pa.pkgname, pa.repo, pkg_b, some pa⟩

/-- The main loop of get_differences_info: build one Difference per row,
appending it only when no structurally equal entry is present.  An
AttributeError aborts the whole computation. -/
def processRows (arch_a : Arch) (pkgs : Nat → Option Package) :
    List (Nat × Option Nat) → List Difference → Except String (List Difference)
  | [], differences => Except.ok differences
  | row :: rest, differences =>
      match buildDifference arch_a (pkgs row.1) (row.2.bind pkgs) with
      | Except.error e => Except.error e
      | Except.ok item =>
          processRows arch_a pkgs rest
            (if item ∈ differences then differences else differences ++ [item])

/-- Final sort key of get_differences_info: (repo name, package name). -/
def diffLE (a b : Difference) : Prop :=
  a.repo.name < b.repo.name ∨ (a.repo.name = b.repo.name ∧ a.pkgname ≤ b.pkgname)

instance : DecidableRel diffLE := fun a b => by
  unfold diffLE; infer_instance

/-- get_differences_info over a database snapshot: run the raw SQL, fetch
every first-column id in bulk, orient and deduplicate each row, and sort
the result by (repo name, package name). -/
def get_differences_info (db : List Package) (arch_a arch_b : Arch) :
    Except String (List Difference) :=
  let results := sqlRows db arch_a arch_b
  let to_fetch := results.map Prod.fst
  let pkgs := in_bulk db to_fetch
  match processRows arch_a pkgs results [] with
  | Except.error e => Except.error e
  | Except.ok differences => Except.ok (List.insertionSort diffLE differences)

/-! ## Signoff quorum logic -/

structure Signoff where
  id : Nat
  user : Nat
  pkgbase : String
  full_version : String
  arch_id : Nat
  repo_id : Nat
  revoked : Bool
deriving DecidableEq, Repr

structure SignoffSpecification where
  required : Nat
deriving DecidableEq, Repr

/-- approved_by_signoffs: a falsy (empty) signoff set is never approved;
otherwise count the non-revoked signoffs against the requirement. -/
def approved_by_signoffs (signoffs : Finset Signoff)
    (spec : SignoffSpecification) : Bool :=
  if signoffs ≠ ∅ then
    let good_signoffs := (signoffs.filter (fun s => s.revoked = false)).card
    decide (spec.required ≤ good_signoffs)
  else false

/-- The PackageSignoffGroup object.  user, maintainers, specification and
default_spec come from external collaborators (the acting-user slot, the
maintainer query, and the signoff-specification resolver with its
identity-based default check), passed in as data at construction. -/
structure PackageSignoffGroup where
  packages : List Package
  user : Option Nat
  target_repo : Option String
  signoffs : Finset Signoff
  pkgbase : String
  arch : Arch
  repo : Repo
  version : String
  last_update : Nat
  packager : Nat
  maintainers : List Nat
  specification : SignoffSpecification
  default_spec : Bool
deriving DecidableEq

/-- PackageSignoffGroup.__init__: an empty package list raises; otherwise
every header attribute is drawn from the first member, and version is set
to the shared full version exactly when all members agree on it.  The
external resolvers are parameters: specOf returns the resolved
specification together with the is-the-default flag, maintainersOf the
maintainer set for a pkgbase. -/
def PackageSignoffGroup.init (specOf : Package → SignoffSpecification × Bool)
    (maintainersOf : String → List Nat) (packages : List Package) :
    Option PackageSignoffGroup :=
  match packages with
  | [] => none
  | first :: _ =>
      some
        { packages := packages
          user := none
          target_repo := none
          signoffs := ∅
          pkgbase := first.pkgbase
          arch := first.arch
          repo := first.repo
          version :=
            if packages.all (fun pkg => decide (first.full_version = pkg.full_version))
            then first.full_version else ""
          last_update := first.last_update
          packager := first.packager
          maintainers := maintainersOf first.pkgbase
          specification := (specOf first).1
          default_spec := (specOf first).2 }

/-- PackageSignoffGroup.find_signoffs: scan the candidate list, skipping
records with the wrong pkgbase, records with the wrong full version when
the group version is non-empty (truthy), and records with the wrong arch
or repo id; every survivor is added to the signoff set. -/
def PackageSignoffGroup.find_signoffs (g : PackageSignoffGroup)
    (all_signoffs : List Signoff) : PackageSignoffGroup :=
  { g with
    signoffs :=
      all_signoffs.foldl
        (fun acc s =>
          if s.pkgbase ≠ g.pkgbase then acc
          else if g.version ≠ "" ∧ s.full_version ≠ g.version then acc
          else if s.arch_id = g.arch.id ∧ s.repo_id = g.repo.id then insert s acc
          else acc)
        g.signoffs }

/-- PackageSignoffGroup.approved: delegate to the quorum rule. -/
def PackageSignoffGroup.approved (g : PackageSignoffGroup) : Bool :=
  approved_by_signoffs g.signoffs g.specification

/-- The condition under which find_signoffs attaches a candidate record
(used to state the characterisation of the loop). -/
def signoffMatches (g : PackageSignoffGroup) (s : Signoff) : Bool :=
  decide (s.pkgbase = g.pkgbase ∧ (g.version = "" ∨ s.full_version = g.version) ∧
          s.arch_id = g.arch.id ∧ s.repo_id = g.repo.id)

/-! ## SignoffGroupBuilder: get_signoff_groups -/

/-- Modelled from the spec: main.utils.groupby_preserve_order is not under
src/.  Per the spec it groups contiguous runs of records sharing the same
key, preserving the order in which groups are first encountered (two
non-contiguous ranges with the same key stay separate groups). -/
def groupRuns (key : Package → String × String × String) :
    List Package → List (List Package)
  | [] => []
  | [p] => [[p]]
  | p :: q :: rest =>
      match groupRuns key (q :: rest) with
      | [] => [[p]]
      | g :: gs =>
          if key p = key q then (p :: g) :: gs else [p] :: g :: gs

/-- The per-group body of get_signoff_groups, iterated over the grouped
package list: construct the group, resolve its target repo from the
pkgbase map with the Unknown default, and attach matching signoffs.  A
constructor failure propagates. -/
def buildGroups (specOf : Package → SignoffSpecification × Bool)
    (maintainersOf : String → List Nat) (pkgtorepo : List (String × String))
    (signoffs : List Signoff) :
    List (List Package) → Option (List PackageSignoffGroup)
  | [] => some []
  | grp :: rest =>
      match PackageSignoffGroup.init specOf maintainersOf grp with
      | none => none
      | some sg =>
          match buildGroups specOf maintainersOf pkgtorepo signoffs rest with
          | none => none
          | some t =>
              some ((PackageSignoffGroup.find_signoffs
                { sg with target_repo := some ((alLookup pkgtorepo sg.pkgbase).getD "Unknown") }
                signoffs) :: t)

/-- get_signoff_groups over externally supplied data: group the fetched
packages by (repo name, arch name, pkgbase) and run the builder loop.
pkgtorepo is the resolved target-repo map, signoffs the current signoff
records for the repos. -/
def get_signoff_groups (specOf : Package → SignoffSpecification × Bool)
    (maintainersOf : String → List Nat) (pkgtorepo : List (String × String))
    (signoffs : List Signoff) (packages : List Package) :
    Option (List PackageSignoffGroup) :=
  buildGroups specOf maintainersOf pkgtorepo signoffs
    (groupRuns (fun x => (x.repo.name, x.arch.name, x.pkgbase)) packages)

/-! ## Concrete sample data for witnesses and counterexamples -/

def archW1 : Arch := ⟨1, "x86_64"⟩

def archW2 : Arch := ⟨2, "i686"⟩

def archW3 : Arch := ⟨3, "arm"⟩

def repoW : Repo := ⟨1, "core"⟩

def pkgFooA : Package := ⟨1, "foo", "foo", repoW, archW1, "1", "1", 0, "1-1", 10, 7⟩

def pkgFooB : Package := ⟨2, "foo", "foo", repoW, archW2, "2", "1", 0, "2-1", 11, 7⟩

def pkgBarA : Package := ⟨3, "bar", "bar", repoW, archW1, "1", "1", 0, "1-1", 12, 7⟩

def pkgBarArm : Package := ⟨4, "bar", "bar", repoW, archW3, "1", "1", 0, "1-1", 13, 7⟩

def pkgFoo2A : Package := ⟨5, "foo2", "foo", repoW, archW1, "2", "1", 0, "2-1", 10, 7⟩

def rowsW5 : List GroupEntry :=
  [⟨"g", "any", 2, 5⟩, ⟨"g", "x86_64", 3, 4⟩, ⟨"h", "i686", 1, 9⟩]

def rowsW6 : List GroupEntry := [⟨"k", "any", 2, 5⟩, ⟨"h", "i686", 1, 9⟩]

def specW : Package → SignoffSpecification × Bool := fun _ => (⟨2⟩, true)

def maintW : String → List Nat := fun _ => []

def sgnW1 : Signoff := ⟨1, 11, "foo", "1-1", 1, 1, false⟩

def sgnW2 : Signoff := ⟨2, 12, "foo", "2-1", 1, 1, true⟩

/-- The group PackageSignoffGroup.init builds from the mixed-version list
[pkgFooA, pkgFoo2A]. -/
def groupMixedW : PackageSignoffGroup :=
  ⟨[pkgFooA, pkgFoo2A], none, none, ∅, "foo", archW1, repoW, "", 10, 7, [], ⟨2⟩, true⟩

/-- The group PackageSignoffGroup.init builds from the singleton list
[pkgFooA]. -/
def groupSingleW : PackageSignoffGroup :=
  ⟨[pkgFooA], none, none, ∅, "foo", archW1, repoW, "1-1", 10, 7, [], ⟨2⟩, true⟩

/-- groupSingleW after the builder resolved its target repo against an
empty pkgbase map. -/
def groupBuiltW : PackageSignoffGroup :=
  ⟨[pkgFooA], none, some "Unknown", ∅, "foo", archW1, repoW, "1-1", 10, 7, [], ⟨2⟩, true⟩

/-! ## Association-list lemmas -/

theorem alLookup_alUpdate_self {β : Type} (m : List (String × β)) (k : String) (v : β) :
    alLookup (alUpdate m k v) k = some v := by
  induction m with
  | nil => simp [alUpdate, alLookup]
  | cons p rest ih =>
    obtain ⟨k1, v1⟩ := p
    by_cases h : k1 = k
    · simp [alUpdate, h, alLookup]
    · simp [alUpdate, h, alLookup, ih]

theorem alLookup_alUpdate_ne {β : Type} (m : List (String × β)) (k : String) (v : β)
    (k2 : String) (h : k ≠ k2) :
    alLookup (alUpdate m k v) k2 = alLookup m k2 := by
  induction m with
  | nil => simp [alUpdate, alLookup, h]
  | cons p rest ih =>
    obtain ⟨k1, v1⟩ := p
    by_cases h1 : k1 = k
    · subst h1
      simp [alUpdate, alLookup, h]
    · simp [alUpdate, h1, alLookup, ih]

theorem mem_alUpdate {β : Type} {m : List (String × β)} {k : String} {v : β}
    {p : String × β} (h : p ∈ alUpdate m k v) : p = (k, v) ∨ p ∈ m := by
  induction m with
  | nil => simpa [alUpdate] using h
  | cons q rest ih =>
    obtain ⟨k1, v1⟩ := q
    by_cases h1 : k1 = k
    · simp only [alUpdate, h1, if_pos rfl] at h
      rcases List.mem_cons.mp h with h2 | h2
      · exact Or.inl h2
      · exact Or.inr (List.mem_cons_of_mem _ h2)
    · simp only [alUpdate, if_neg h1] at h
      rcases List.mem_cons.mp h with h2 | h2
      · exact Or.inr (h2 ▸ List.mem_cons_self _ _)
      · rcases ih h2 with h3 | h3
        · exact Or.inl h3
        · exact Or.inr (List.mem_cons_of_mem _ h3)

theorem keys_alUpdate {β : Type} (m : List (String × β)) (k : String) (v : β) :
    (alUpdate m k v).map Prod.fst = m.map Prod.fst ∨
    (alUpdate m k v).map Prod.fst = m.map Prod.fst ++ [k] := by
  induction m with
  | nil => simp [alUpdate]
  | cons p rest ih =>
    obtain ⟨k1, v1⟩ := p
    by_cases h1 : k1 = k
    · subst h1; simp [alUpdate]
    · rcases ih with h2 | h2
      · exact Or.inl (by simp [alUpdate, h1, h2])
      · exact Or.inr (by simp [alUpdate, h1, h2])

theorem keys_alUpdate_nodup {β : Type} {m : List (String × β)} {k : String} {v : β}
    (h : (m.map Prod.fst).Nodup) : ((alUpdate m k v).map Prod.fst).Nodup := by
  induction m with
  | nil => simp [alUpdate]
  | cons p rest ih =>
    obtain ⟨k1, v1⟩ := p
    simp only [List.map_cons, List.nodup_cons] at h
    by_cases h1 : k1 = k
    · subst h1
      have he : alUpdate ((k1, v1) :: rest) k1 v = (k1, v) :: rest := by
        simp [alUpdate]
      rw [he]
      simp only [List.map_cons, List.nodup_cons]
      exact h
    · simp only [alUpdate, if_neg h1, List.map_cons, List.nodup_cons]
      refine ⟨?_, ih h.2⟩
      intro hb
      rcases keys_alUpdate rest k v with h2 | h2
      · rw [h2] at hb
        exact h.1 hb
      · rw [h2] at hb
        rcases List.mem_append.mp hb with h3 | h3
        · exact h.1 h3
        · simp only [List.mem_singleton] at h3
          exact h1 h3

theorem alLookup_eq_some_mem {β : Type} {m : List (String × β)} {k : String} {v : β}
    (h : alLookup m k = some v) : (k, v) ∈ m := by
  induction m with
  | nil => simp [alLookup] at h
  | cons p rest ih =>
    obtain ⟨k1, v1⟩ := p
    by_cases h1 : k1 = k
    · subst h1
      simp [alLookup] at h
      subst h
      exact List.mem_cons_self _ _
    · simp only [alLookup, if_neg h1] at h
      exact List.mem_cons_of_mem _ (ih h)

theorem alLookup_mem_nodup {β : Type} {m : List (String × β)} {k : String} {v : β}
    (hnd : (m.map Prod.fst).Nodup) (h : (k, v) ∈ m) : alLookup m k = some v := by
  induction m with
  | nil => simp at h
  | cons p rest ih =>
    obtain ⟨k1, v1⟩ := p
    simp only [List.map_cons, List.nodup_cons] at hnd
    rcases List.mem_cons.mp h with h1 | h1
    · obtain ⟨hk, hv⟩ := Prod.mk.injEq .. ▸ h1
      simp [alLookup, hk.symm, hv]
    · have hk1 : k1 ≠ k := by
        intro he
        exact hnd.1 (he ▸ (List.mem_map.mpr ⟨(k, v), h1, rfl⟩))
      simp [alLookup, hk1, ih hnd.2 h1]

theorem exists_alLookup_of_mem {β : Type} {m : List (String × β)} {k : String} {v : β}
    (h : (k, v) ∈ m) : ∃ w, alLookup m k = some w := by
  induction m with
  | nil => simp at h
  | cons p rest ih =>
    obtain ⟨k1, v1⟩ := p
    by_cases h1 : k1 = k
    · exact ⟨v1, by simp [alLookup, h1]⟩
    · rcases List.mem_cons.mp h with h2 | h2
      · exact absurd (congrArg Prod.fst h2).symm h1
      · obtain ⟨w, hw⟩ := ih h2
        exact ⟨w, by simp [alLookup, h1, hw]⟩

theorem alErase_cons {β : Type} (rest : List (String × β)) (k1 k : String) (v1 : β) :
    alErase ((k1, v1) :: rest) k
      = if k1 = k then alErase rest k else (k1, v1) :: alErase rest k := by
  by_cases h1 : k1 = k <;> simp [alErase, List.filter_cons, h1]

theorem alLookup_alErase {β : Type} (m : List (String × β)) (k k2 : String) :
    alLookup (alErase m k) k2 = if k = k2 then none else alLookup m k2 := by
  induction m with
  | nil => by_cases h : k = k2 <;> simp [alErase, alLookup, h]
  | cons p rest ih =>
    obtain ⟨k1, v1⟩ := p
    rw [alErase_cons]
    by_cases h1 : k1 = k
    · rw [if_pos h1, ih]
      by_cases h2 : k = k2
      · simp [h2]
      · have h3 : k1 ≠ k2 := by rw [h1]; exact h2
        simp [h2, alLookup, h3]
    · rw [if_neg h1]
      by_cases h2 : k1 = k2
      · subst h2
        have h3 : ¬ k = k1 := fun he => h1 he.symm
        simp [alLookup, h3]
      · simp only [alLookup, if_neg h2]
        exact ih

theorem keys_alErase_nodup {β : Type} {m : List (String × β)} {k : String}
    (h : (m.map Prod.fst).Nodup) : ((alErase m k).map Prod.fst).Nodup := by
  have hsub : List.Sublist (alErase m k) m := List.filter_sublist m
  exact List.Nodup.sublist (List.Sublist.map Prod.fst hsub) h

theorem mem_alErase {β : Type} {m : List (String × β)} {k : String} {p : String × β}
    (h : p ∈ alErase m k) : p ∈ m ∧ p.1 ≠ k := by
  have := List.mem_filter.mp h
  exact ⟨this.1, by simpa using this.2⟩

theorem alLookup_mapVal {β γ : Type} (m : List (String × β)) (f : String → β → γ)
    (k : String) :
    alLookup (m.map (fun p => (p.1, f p.1 p.2))) k = (alLookup m k).map (f k) := by
  induction m with
  | nil => simp [alLookup]
  | cons p rest ih =>
    obtain ⟨k1, v1⟩ := p
    by_cases h1 : k1 = k
    · subst h1; simp [alLookup]
    · simp [alLookup, h1, ih]

theorem keys_mapVal {β γ : Type} (m : List (String × β)) (f : String → β → γ) :
    (m.map (fun p => (p.1, f p.1 p.2))).map Prod.fst = m.map Prod.fst := by
  induction m with
  | nil => rfl
  | cons p rest ih => simp [ih]

theorem alLookup_eq_none_of_not_key {β : Type} {m : List (String × β)} {k : String}
    (h : k ∉ m.map Prod.fst) : alLookup m k = none := by
  induction m with
  | nil => rfl
  | cons p rest ih =>
    obtain ⟨k1, v1⟩ := p
    simp only [List.map_cons, List.mem_cons] at h
    push_neg at h
    have h1 : ¬ k1 = k := fun he => h.1 he.symm
    simp [alLookup, h1, ih h.2]

theorem alLookup_split {β : Type} {m : List (String × β)} {k : String} {v : β}
    (hnd : (m.map Prod.fst).Nodup) (h : alLookup m k = some v) :
    ∃ m1 m2, m = m1 ++ (k, v) :: m2 ∧ (∀ p ∈ m1, p.1 ≠ k) ∧ ∀ p ∈ m2, p.1 ≠ k := by
  induction m with
  | nil => simp [alLookup] at h
  | cons p rest ih =>
    obtain ⟨k1, v1⟩ := p
    simp only [List.map_cons, List.nodup_cons] at hnd
    by_cases h1 : k1 = k
    · subst h1
      simp [alLookup] at h
      refine ⟨[], rest, by simp [h], by simp, ?_⟩
      intro p hp he
      exact hnd.1 (he ▸ List.mem_map.mpr ⟨p, hp, rfl⟩)
    · simp only [alLookup, if_neg h1] at h
      obtain ⟨m1, m2, he, h2, h3⟩ := ih hnd.2 h
      exact ⟨(k1, v1) :: m1, m2, by simp [he], by
        intro p hp
        rcases List.mem_cons.mp hp with h4 | h4
        · rw [h4]; exact h1
        · exact h2 p h4, h3⟩

/-! ## find_signoffs characterisation -/

theorem find_signoffs_step_eq (g : PackageSignoffGroup) (s : Signoff)
    (acc : Finset Signoff) :
    (if s.pkgbase ≠ g.pkgbase then acc
     else if g.version ≠ "" ∧ s.full_version ≠ g.version then acc
     else if s.arch_id = g.arch.id ∧ s.repo_id = g.repo.id then insert s acc
     else acc)
    = if signoffMatches g s then insert s acc else acc := by
  by_cases h1 : s.pkgbase = g.pkgbase <;>
    by_cases h2 : g.version = "" <;>
    by_cases h3 : s.full_version = g.version <;>
    by_cases h4 : s.arch_id = g.arch.id ∧ s.repo_id = g.repo.id <;>
    simp [signoffMatches, h1, h2, h3, h4]

theorem find_signoffs_foldl (g : PackageSignoffGroup) (all_signoffs : List Signoff) :
    ∀ acc : Finset Signoff,
      all_signoffs.foldl
        (fun acc s =>
          if s.pkgbase ≠ g.pkgbase then acc
          else if g.version ≠ "" ∧ s.full_version ≠ g.version then acc
          else if s.arch_id = g.arch.id ∧ s.repo_id = g.repo.id then insert s acc
          else acc) acc
      = acc ∪ (all_signoffs.filter (signoffMatches g)).toFinset := by
  induction all_signoffs with
  | nil => intro acc; simp
  | cons s rest ih =>
    intro acc
    rw [List.foldl_cons, find_signoffs_step_eq, ih]
    by_cases h : signoffMatches g s
    · rw [if_pos h]
      ext x
      simp only [Finset.mem_union, Finset.mem_insert, List.mem_toFinset,
        List.mem_filter, List.filter_cons, if_pos h, List.mem_cons]
      tauto
    · rw [if_neg h]
      ext x
      simp only [Finset.mem_union, List.mem_toFinset, List.mem_filter,
        List.filter_cons, if_neg h]

theorem find_signoffs_spec (g : PackageSignoffGroup) (all_signoffs : List Signoff) :
    (g.find_signoffs all_signoffs).signoffs
      = g.signoffs ∪ (all_signoffs.filter (signoffMatches g)).toFinset :=
  find_signoffs_foldl g all_signoffs g.signoffs

theorem find_signoffs_version (g : PackageSignoffGroup) (all_signoffs : List Signoff) :
    (g.find_signoffs all_signoffs).version = g.version := rfl

theorem find_signoffs_pkgbase (g : PackageSignoffGroup) (all_signoffs : List Signoff) :
    (g.find_signoffs all_signoffs).pkgbase = g.pkgbase := rfl

theorem find_signoffs_target_repo (g : PackageSignoffGroup)
    (all_signoffs : List Signoff) :
    (g.find_signoffs all_signoffs).target_repo = g.target_repo := rfl

theorem signoffMatches_find_signoffs (g : PackageSignoffGroup)
    (all_signoffs : List Signoff) :
    signoffMatches (g.find_signoffs all_signoffs) = signoffMatches g := rfl

/-! ## Claim theorems: signoff logic -/

/-- Claim C1: approved_by_signoffs (and PackageSignoffGroup.approved,
which delegates to it) returns true iff the signoff set is non-empty and
the number of non-revoked records is at least spec.required; an empty set
is never approved even when the requirement is zero. -/
theorem claim_c1_quorum :
    (∀ (signoffs : Finset Signoff) (spec : SignoffSpecification),
      approved_by_signoffs signoffs spec = true ↔
        signoffs.Nonempty ∧
          spec.required ≤ (signoffs.filter (fun s => s.revoked = false)).card)
    ∧ (∀ g : PackageSignoffGroup,
        g.approved = approved_by_signoffs g.signoffs g.specification)
    ∧ (∀ spec : SignoffSpecification, approved_by_signoffs ∅ spec = false) := by
  refine ⟨?_, fun g => rfl, fun spec => by simp [approved_by_signoffs]⟩
  intro signoffs spec
  by_cases h : signoffs = ∅
  · subst h
    simp [approved_by_signoffs]
  · simp [approved_by_signoffs, h, Finset.nonempty_iff_ne_empty]

/-- Claim C7: a mixed-version member list yields the empty group version
and version-blind signoff matching; a uniform non-empty version is adopted
as the group version and additionally filters signoffs by full version. -/
theorem claim_c7_mixed_version (specOf : Package → SignoffSpecification × Bool)
    (maintainersOf : String → List Nat) (packages : List Package)
    (g : PackageSignoffGroup)
    (hg : PackageSignoffGroup.init specOf maintainersOf packages = some g)
    (all_signoffs : List Signoff) :
    ((∃ p ∈ packages, ∃ q ∈ packages, p.full_version ≠ q.full_version) →
      g.version = "" ∧
      ∀ s : Signoff,
        s ∈ (g.find_signoffs all_signoffs).signoffs ↔
          s ∈ g.signoffs ∨ (s ∈ all_signoffs ∧ s.pkgbase = g.pkgbase ∧
            s.arch_id = g.arch.id ∧ s.repo_id = g.repo.id))
    ∧ (∀ first : Package, packages.head? = some first →
        first.full_version ≠ "" →
        (∀ p ∈ packages, p.full_version = first.full_version) →
        g.version = first.full_version ∧
        ∀ s : Signoff,
          s ∈ (g.find_signoffs all_signoffs).signoffs ↔
            s ∈ g.signoffs ∨ (s ∈ all_signoffs ∧ s.pkgbase = g.pkgbase ∧
              s.full_version = g.version ∧
              s.arch_id = g.arch.id ∧ s.repo_id = g.repo.id)) := by
  match packages, hg with
  | first :: rest, hg =>
    simp only [PackageSignoffGroup.init, Option.some.injEq] at hg
    constructor
    · rintro ⟨p, hp, q, hq, hpq⟩
      have hver : g.version = "" := by
        rw [← hg]
        have : ¬ ((first :: rest).all
            (fun pkg => decide (first.full_version = pkg.full_version)) = true) := by
          intro hall
          rw [List.all_eq_true] at hall
          have h1 := of_decide_eq_true (hall p hp)
          have h2 := of_decide_eq_true (hall q hq)
          exact hpq (h1 ▸ h2 ▸ rfl)
        simp [this]
      refine ⟨hver, fun s => ?_⟩
      rw [find_signoffs_spec]
      simp only [Finset.mem_union, List.mem_toFinset, List.mem_filter,
        signoffMatches, decide_eq_true_eq, hver]
      tauto
    · intro f hf hne hall
      have hfirst : first = f := by simpa using hf
      have hver : g.version = f.full_version := by
        rw [← hg]
        have hall2 : ((first :: rest).all
            (fun pkg => decide (first.full_version = pkg.full_version))) = true := by
          rw [List.all_eq_true]
          intro pkg hpkg
          have h1 := hall pkg hpkg
          have h2 := hall first (List.mem_cons_self _ _)
          exact decide_eq_true (h2.trans h1.symm)
        simp [hall2, ← hfirst]
      refine ⟨hver, fun s => ?_⟩
      rw [find_signoffs_spec]
      have hgne : g.version ≠ "" := by rw [hver]; exact hne
      simp only [Finset.mem_union, List.mem_toFinset, List.mem_filter,
        signoffMatches, decide_eq_true_eq]
      constructor
      · rintro (h | ⟨h1, h2, h3, h4⟩)
        · exact Or.inl h
        · rcases h3 with h3 | h3
          · exact absurd h3 hgne
          · exact Or.inr ⟨h1, h2, h3, h4⟩
      · rintro (h | ⟨h1, h2, h3, h4⟩)
        · exact Or.inl h
        · exact Or.inr ⟨h1, h2, Or.inr h3, h4⟩

/-- Witness for C7 at the concrete mixed-version member list
[pkgFooA, pkgFoo2A]. -/
theorem claim_c7_witness :
    ((∃ p ∈ [pkgFooA, pkgFoo2A], ∃ q ∈ [pkgFooA, pkgFoo2A],
        p.full_version ≠ q.full_version) →
      groupMixedW.version = "" ∧
      ∀ s : Signoff,
        s ∈ (groupMixedW.find_signoffs [sgnW1, sgnW2]).signoffs ↔
          s ∈ groupMixedW.signoffs ∨ (s ∈ [sgnW1, sgnW2] ∧
            s.pkgbase = groupMixedW.pkgbase ∧
            s.arch_id = groupMixedW.arch.id ∧ s.repo_id = groupMixedW.repo.id))
    ∧ (∀ first : Package, [pkgFooA, pkgFoo2A].head? = some first →
        first.full_version ≠ "" →
        (∀ p ∈ [pkgFooA, pkgFoo2A], p.full_version = first.full_version) →
        groupMixedW.version = first.full_version ∧
        ∀ s : Signoff,
          s ∈ (groupMixedW.find_signoffs [sgnW1, sgnW2]).signoffs ↔
            s ∈ groupMixedW.signoffs ∨ (s ∈ [sgnW1, sgnW2] ∧
              s.pkgbase = groupMixedW.pkgbase ∧
              s.full_version = groupMixedW.version ∧
              s.arch_id = groupMixedW.arch.id ∧ s.repo_id = groupMixedW.repo.id)) :=
  claim_c7_mixed_version specW maintW [pkgFooA, pkgFoo2A] groupMixedW
    (by decide) [sgnW1, sgnW2]

/-- Claim C8: constructing a PackageSignoffGroup from an empty list fails;
from a non-empty list it succeeds and draws pkgbase, architecture,
repository, last update and packager from the first member. -/
theorem claim_c8_empty_invalid (specOf : Package → SignoffSpecification × Bool)
    (maintainersOf : String → List Nat) :
    PackageSignoffGroup.init specOf maintainersOf [] = none ∧
    ∀ (first : Package) (rest : List Package),
      ∃ g, PackageSignoffGroup.init specOf maintainersOf (first :: rest) = some g ∧
        g.pkgbase = first.pkgbase ∧ g.arch = first.arch ∧ g.repo = first.repo ∧
        g.last_update = first.last_update ∧ g.packager = first.packager := by
  refine ⟨rfl, fun first rest => ⟨_, rfl, rfl, rfl, rfl, rfl, rfl⟩⟩

/-- Claim C10: find_signoffs is idempotent; re-running the matching pass
with the same candidate list leaves the attached signoff set unchanged. -/
theorem claim_c10_idempotent (g : PackageSignoffGroup)
    (all_signoffs : List Signoff) :
    (g.find_signoffs all_signoffs).find_signoffs all_signoffs
      = g.find_signoffs all_signoffs := by
  have hmain : ((g.find_signoffs all_signoffs).find_signoffs all_signoffs).signoffs
      = (g.find_signoffs all_signoffs).signoffs := by
    rw [find_signoffs_spec (g.find_signoffs all_signoffs),
      signoffMatches_find_signoffs, find_signoffs_spec g, Finset.union_assoc,
      Finset.union_self]
  calc (g.find_signoffs all_signoffs).find_signoffs all_signoffs
      = { g with signoffs :=
          ((g.find_signoffs all_signoffs).find_signoffs all_signoffs).signoffs } := rfl
    _ = { g with signoffs := (g.find_signoffs all_signoffs).signoffs } := by
          rw [hmain]
    _ = g.find_signoffs all_signoffs := rfl

/-! ## Claim C9: target-repository label -/

theorem buildGroups_unknown (specOf : Package → SignoffSpecification × Bool)
    (maintainersOf : String → List Nat) (pkgtorepo : List (String × String))
    (signoffs : List Signoff) :
    ∀ (gs : List (List Package)) (l : List PackageSignoffGroup),
      buildGroups specOf maintainersOf pkgtorepo signoffs gs = some l →
      ∀ g ∈ l, alLookup pkgtorepo g.pkgbase = none → g.target_repo = some "Unknown" := by
  intro gs
  induction gs with
  | nil =>
    intro l hl g hg hlook
    simp only [buildGroups, Option.some.injEq] at hl
    subst hl
    simp at hg
  | cons grp rest ih =>
    intro l hl g hg hlook
    simp only [buildGroups] at hl
    cases hinit : PackageSignoffGroup.init specOf maintainersOf grp with
    | none => rw [hinit] at hl; simp at hl
    | some sg =>
      rw [hinit] at hl
      cases hrest : buildGroups specOf maintainersOf pkgtorepo signoffs rest with
      | none => rw [hrest] at hl; simp at hl
      | some t =>
        rw [hrest] at hl
        simp only [Option.some.injEq] at hl
        subst hl
        rcases List.mem_cons.mp hg with h1 | h1
        · subst h1
          have h2 : alLookup pkgtorepo sg.pkgbase = none := hlook
          show some ((alLookup pkgtorepo sg.pkgbase).getD "Unknown") = some "Unknown"
          rw [h2]
          rfl
        · exact ih t hrest g h1 hlook

/-- Counterexample to claim C9 as stated: a freshly constructed group has
target_repo equal to none, not the label Unknown (the Unknown default is
applied only later, by the builder). -/
theorem claim_c9_counterexample :
    PackageSignoffGroup.init specW maintW [pkgFooA] = some groupSingleW ∧
    groupSingleW.target_repo = none ∧
    groupSingleW.target_repo ≠ some "Unknown" := by
  refine ⟨by decide, rfl, by decide⟩

/-- Claim C9 (amended): a freshly constructed PackageSignoffGroup carries
no target-repository label (the slot is none, not the string Unknown); the
builder then assigns the label, and any built group whose pkgbase has no
entry in the resolved target-repo map gets the label Unknown. -/
theorem claim_c9_amended :
    (∀ (specOf : Package → SignoffSpecification × Bool)
       (maintainersOf : String → List Nat) (packages : List Package)
       (g : PackageSignoffGroup),
       PackageSignoffGroup.init specOf maintainersOf packages = some g →
       g.target_repo = none)
    ∧ (∀ (specOf : Package → SignoffSpecification × Bool)
       (maintainersOf : String → List Nat) (pkgtorepo : List (String × String))
       (signoffs : List Signoff) (packages : List Package)
       (l : List PackageSignoffGroup) (g : PackageSignoffGroup),
       get_signoff_groups specOf maintainersOf pkgtorepo signoffs packages = some l →
       g ∈ l → alLookup pkgtorepo g.pkgbase = none →
       g.target_repo = some "Unknown") := by
  constructor
  · intro specOf maintainersOf packages g hg
    match packages, hg with
    | first :: rest, hg =>
      simp only [PackageSignoffGroup.init, Option.some.injEq] at hg
      rw [← hg]
  · intro specOf maintainersOf pkgtorepo signoffs packages l g hl hg hlook
    exact buildGroups_unknown specOf maintainersOf pkgtorepo signoffs _ l hl g hg hlook

/-- Witness for C9 (amended) at concrete inputs: a fresh group from
[pkgFooA], and the builder run with an empty target-repo map. -/
theorem claim_c9_witness :
    groupSingleW.target_repo = none ∧ groupBuiltW.target_repo = some "Unknown" :=
  ⟨claim_c9_amended.1 specW maintW [pkgFooA] groupSingleW (by decide),
   claim_c9_amended.2 specW maintW [] [] [pkgFooA] [groupBuiltW] groupBuiltW
     (by decide) (by decide) (by decide)⟩

/-! ## Difference detector lemmas -/

theorem buildDifference_some_eq {arch_a : Arch} {pa : Package}
    {pb : Option Package} (h : pa.arch = arch_a) :
    buildDifference arch_a (some pa) pb
      = Except.ok ⟨pa.pkgname, pa.repo, some pa, pb⟩ := by
  simp [buildDifference, h]

theorem buildDifference_some_ne {arch_a : Arch} {pa : Package}
    {pb : Option Package} (h : pa.arch ≠ arch_a) :
    buildDifference arch_a (some pa) pb
      = Except.ok ⟨pa.pkgname, pa.repo, pb, some pa⟩ := by
  simp [buildDifference, h]

theorem buildDifference_ok_inv {arch_a : Arch} {pkg_a pkg_b : Option Package}
    {d : Difference} (h : buildDifference arch_a pkg_a pkg_b = Except.ok d) :
    ∃ pa, pkg_a = some pa ∧ d.pkgname = pa.pkgname ∧ d.repo = pa.repo ∧
      ((pa.arch = arch_a ∧ d.pkg_a = some pa ∧ d.pkg_b = pkg_b) ∨
       (pa.arch ≠ arch_a ∧ d.pkg_a = pkg_b ∧ d.pkg_b = some pa)) := by
  cases pkg_a with
  | none => simp [buildDifference] at h
  | some pa =>
    by_cases harch : pa.arch = arch_a
    · rw [buildDifference_some_eq harch] at h
      simp only [Except.ok.injEq] at h
      exact ⟨pa, rfl, by rw [← h], by rw [← h],
        Or.inl ⟨harch, by rw [← h], by rw [← h]⟩⟩
    · rw [buildDifference_some_ne harch] at h
      simp only [Except.ok.injEq] at h
      exact ⟨pa, rfl, by rw [← h], by rw [← h],
        Or.inr ⟨harch, by rw [← h], by rw [← h]⟩⟩

theorem processRows_cons_ok {arch_a : Arch} {pkgs : Nat → Option Package}
    {row : Nat × Option Nat} {rest : List (Nat × Option Nat)}
    {ds : List Difference} {item : Difference}
    (hb : buildDifference arch_a (pkgs row.1) (row.2.bind pkgs) = Except.ok item) :
    processRows arch_a pkgs (row :: rest) ds
      = processRows arch_a pkgs rest (if item ∈ ds then ds else ds ++ [item]) := by
  have h0 : processRows arch_a pkgs (row :: rest) ds
      = match buildDifference arch_a (pkgs row.1) (row.2.bind pkgs) with
        | Except.error e => Except.error e
        | Except.ok item =>
            processRows arch_a pkgs rest
              (if item ∈ ds then ds else ds ++ [item]) := rfl
  rw [h0, hb]

theorem processRows_cons_err {arch_a : Arch} {pkgs : Nat → Option Package}
    {row : Nat × Option Nat} {rest : List (Nat × Option Nat)}
    {ds : List Difference} {e : String}
    (hb : buildDifference arch_a (pkgs row.1) (row.2.bind pkgs) = Except.error e) :
    processRows arch_a pkgs (row :: rest) ds = Except.error e := by
  have h0 : processRows arch_a pkgs (row :: rest) ds
      = match buildDifference arch_a (pkgs row.1) (row.2.bind pkgs) with
        | Except.error e => Except.error e
        | Except.ok item =>
            processRows arch_a pkgs rest
              (if item ∈ ds then ds else ds ++ [item]) := rfl
  rw [h0, hb]

theorem processRows_sub (arch_a : Arch) (pkgs : Nat → Option Package) :
    ∀ (rows : List (Nat × Option Nat)) (ds l : List Difference),
      processRows arch_a pkgs rows ds = Except.ok l → ∀ d ∈ ds, d ∈ l := by
  intro rows
  induction rows with
  | nil =>
    intro ds l h d hd
    simp only [processRows, Except.ok.injEq] at h
    exact h ▸ hd
  | cons row rest ih =>
    intro ds l h d hd
    cases hb : buildDifference arch_a (pkgs row.1) (row.2.bind pkgs) with
    | error e =>
      rw [processRows_cons_err hb] at h
      exact absurd h (by simp)
    | ok item =>
      rw [processRows_cons_ok hb] at h
      by_cases hmem : item ∈ ds
      · rw [if_pos hmem] at h
        exact ih ds l h d hd
      · rw [if_neg hmem] at h
        exact ih _ l h d (List.mem_append_left _ hd)

theorem processRows_ok (arch_a : Arch) (pkgs : Nat → Option Package) :
    ∀ (rows : List (Nat × Option Nat)) (ds : List Difference),
      (∀ row ∈ rows, (pkgs row.1).isSome) →
      ∃ l, processRows arch_a pkgs rows ds = Except.ok l := by
  intro rows
  induction rows with
  | nil => intro ds h; exact ⟨ds, rfl⟩
  | cons row rest ih =>
    intro ds h
    have h1 : (pkgs row.1).isSome := h row (List.mem_cons_self _ _)
    obtain ⟨pa, hpa⟩ := Option.isSome_iff_exists.mp h1
    by_cases harch : pa.arch = arch_a
    · rw [processRows_cons_ok (by rw [hpa]; exact buildDifference_some_eq harch)]
      exact ih _ (fun r hr => h r (List.mem_cons_of_mem _ hr))
    · rw [processRows_cons_ok (by rw [hpa]; exact buildDifference_some_ne harch)]
      exact ih _ (fun r hr => h r (List.mem_cons_of_mem _ hr))

theorem processRows_mem (arch_a : Arch) (pkgs : Nat → Option Package) :
    ∀ (rows : List (Nat × Option Nat)) (ds l : List Difference)
      (row : Nat × Option Nat) (d : Difference),
      processRows arch_a pkgs rows ds = Except.ok l → row ∈ rows →
      buildDifference arch_a (pkgs row.1) (row.2.bind pkgs) = Except.ok d →
      d ∈ l := by
  intro rows
  induction rows with
  | nil => intro ds l row d h hrow hbd; simp at hrow
  | cons row0 rest ih =>
    intro ds l row d h hrow hbd
    rcases List.mem_cons.mp hrow with h1 | h1
    · subst h1
      rw [processRows_cons_ok hbd] at h
      by_cases hmem : d ∈ ds
      · rw [if_pos hmem] at h
        exact processRows_sub arch_a pkgs rest ds l h d hmem
      · rw [if_neg hmem] at h
        exact processRows_sub arch_a pkgs rest _ l h d (by simp)
    · cases hb : buildDifference arch_a (pkgs row0.1) (row0.2.bind pkgs) with
      | error e =>
        rw [processRows_cons_err hb] at h
        exact absurd h (by simp)
      | ok item =>
        rw [processRows_cons_ok hb] at h
        exact ih _ l row d h h1 hbd

theorem processRows_nodup (arch_a : Arch) (pkgs : Nat → Option Package) :
    ∀ (rows : List (Nat × Option Nat)) (ds l : List Difference),
      ds.Nodup → processRows arch_a pkgs rows ds = Except.ok l → l.Nodup := by
  intro rows
  induction rows with
  | nil =>
    intro ds l hnd h
    simp only [processRows, Except.ok.injEq] at h
    exact h ▸ hnd
  | cons row rest ih =>
    intro ds l hnd h
    cases hb : buildDifference arch_a (pkgs row.1) (row.2.bind pkgs) with
    | error e =>
      rw [processRows_cons_err hb] at h
      exact absurd h (by simp)
    | ok item =>
      rw [processRows_cons_ok hb] at h
      by_cases hmem : item ∈ ds
      · rw [if_pos hmem] at h
        exact ih ds l hnd h
      · rw [if_neg hmem] at h
        refine ih _ l ?_ h
        refine List.Nodup.append hnd (List.nodup_singleton item) ?_
        intro a ha hb2
        rw [List.mem_singleton] at hb2
        subst hb2
        exact hmem ha

theorem processRows_src (arch_a : Arch) (pkgs : Nat → Option Package) :
    ∀ (rows : List (Nat × Option Nat)) (ds l : List Difference),
      processRows arch_a pkgs rows ds = Except.ok l →
      ∀ d ∈ l, d ∈ ds ∨ ∃ row ∈ rows,
        buildDifference arch_a (pkgs row.1) (row.2.bind pkgs) = Except.ok d := by
  intro rows
  induction rows with
  | nil =>
    intro ds l h d hd
    simp only [processRows, Except.ok.injEq] at h
    exact Or.inl (h ▸ hd)
  | cons row rest ih =>
    intro ds l h d hd
    cases hb : buildDifference arch_a (pkgs row.1) (row.2.bind pkgs) with
    | error e =>
      rw [processRows_cons_err hb] at h
      exact absurd h (by simp)
    | ok item =>
      rw [processRows_cons_ok hb] at h
      by_cases hmem : item ∈ ds
      · rw [if_pos hmem] at h
        rcases ih ds l h d hd with h1 | ⟨r, hr, hbd⟩
        · exact Or.inl h1
        · exact Or.inr ⟨r, List.mem_cons_of_mem _ hr, hbd⟩
      · rw [if_neg hmem] at h
        rcases ih _ l h d hd with h1 | ⟨r, hr, hbd⟩
        · rcases List.mem_append.mp h1 with h2 | h2
          · exact Or.inl h2
          · simp only [List.mem_singleton] at h2
            exact Or.inr ⟨row, List.mem_cons_self _ _, by rw [h2]; exact hb⟩
        · exact Or.inr ⟨r, List.mem_cons_of_mem _ hr, hbd⟩

theorem mem_sqlRows {db : List Package} {arch_a arch_b : Arch}
    {row : Nat × Option Nat} :
    row ∈ sqlRows db arch_a arch_b ↔
      ∃ p, p ∈ db ∧ (p.arch.id = arch_a.id ∨ p.arch.id = arch_b.id) ∧
        row ∈ pkgRows db p := by
  simp only [sqlRows, List.mem_flatMap, List.mem_filter, decide_eq_true_eq]
  constructor
  · rintro ⟨p, ⟨hp, hc⟩, hr⟩
    exact ⟨p, hp, hc, hr⟩
  · rintro ⟨p, hp, hc, hr⟩
    exact ⟨p, ⟨hp, hc⟩, hr⟩

theorem pkgRows_fst {db : List Package} {p : Package} {row : Nat × Option Nat}
    (h : row ∈ pkgRows db p) : row.1 = p.id := by
  simp only [pkgRows] at h
  by_cases he : (db.filter (fun q => joinCond p q)).isEmpty
  · rw [if_pos he] at h
    simp only [List.mem_singleton] at h
    rw [h]
  · rw [if_neg he] at h
    obtain ⟨q, _, hq⟩ := List.mem_map.mp h
    rw [← hq]

theorem pkgRows_none {db : List Package} {p : Package} {row : Nat × Option Nat}
    (h : row ∈ pkgRows db p) (h2 : row.2 = none) :
    row = (p.id, none) := by
  simp only [pkgRows] at h
  by_cases he : (db.filter (fun q => joinCond p q)).isEmpty
  · rw [if_pos he] at h
    simpa using h
  · rw [if_neg he] at h
    obtain ⟨q, _, hq⟩ := List.mem_map.mp h
    rw [← hq] at h2
    simp at h2

theorem pkgRows_some {db : List Package} {p : Package} {row : Nat × Option Nat}
    {j : Nat} (h : row ∈ pkgRows db p) (h2 : row.2 = some j) :
    ∃ q ∈ db, joinCond p q = true ∧ versionDiffers p q = true ∧ j = q.id := by
  simp only [pkgRows] at h
  by_cases he : (db.filter (fun q => joinCond p q)).isEmpty
  · rw [if_pos he] at h
    simp only [List.mem_singleton] at h
    rw [h] at h2
    simp at h2
  · rw [if_neg he] at h
    obtain ⟨q, hq, hrow⟩ := List.mem_map.mp h
    obtain ⟨hq1, hq2⟩ := List.mem_filter.mp hq
    obtain ⟨hq3, hq4⟩ := List.mem_filter.mp hq1
    rw [← hrow] at h2
    simp only [Option.some.injEq] at h2
    exact ⟨q, hq3, hq4, hq2, h2.symm⟩

theorem mem_pkgRows_none {db : List Package} {p : Package}
    (h : db.filter (fun q => joinCond p q) = []) :
    (p.id, (none : Option Nat)) ∈ pkgRows db p := by
  simp [pkgRows, h]

theorem mem_pkgRows_some {db : List Package} {p q : Package} (hq : q ∈ db)
    (hj : joinCond p q = true) (hv : versionDiffers p q = true) :
    (p.id, some q.id) ∈ pkgRows db p := by
  have hqf : q ∈ db.filter (fun q2 => joinCond p q2) := List.mem_filter.mpr ⟨hq, hj⟩
  have hne : (db.filter (fun q2 => joinCond p q2)).isEmpty = false := by
    cases hflt : db.filter (fun q2 => joinCond p q2) with
    | nil => rw [hflt] at hqf; simp at hqf
    | cons a l => simp
  simp only [pkgRows, hne, Bool.false_eq_true, if_false]
  exact List.mem_map.mpr ⟨q, List.mem_filter.mpr ⟨hqf, hv⟩, rfl⟩

theorem in_bulk_some {db : List Package} {ids : List Nat} {i : Nat} {p : Package}
    (hinj : ∀ a ∈ db, ∀ b ∈ db, a.id = b.id → a = b)
    (hi : i ∈ ids) (hp : p ∈ db) (hpi : p.id = i) :
    in_bulk db ids i = some p := by
  simp only [in_bulk, if_pos hi]
  cases hf : db.find? (fun q => decide (q.id = i)) with
  | none =>
    have h1 := List.find?_eq_none.mp hf p hp
    simp [hpi] at h1
  | some q =>
    have hqm := List.mem_of_find?_eq_some hf
    have hqi : q.id = i := by simpa using List.find?_some hf
    rw [hinj q hqm p hp (hqi.trans hpi.symm)]

theorem in_bulk_none_of_not_mem {db : List Package} {ids : List Nat} {i : Nat}
    (hi : i ∉ ids) : in_bulk db ids i = none := by
  simp [in_bulk, hi]

theorem in_bulk_eq_some_inv {db : List Package} {ids : List Nat} {i : Nat}
    {p : Package} (h : in_bulk db ids i = some p) : p ∈ db ∧ p.id = i := by
  simp only [in_bulk] at h
  by_cases hi : i ∈ ids
  · rw [if_pos hi] at h
    exact ⟨List.mem_of_find?_eq_some h, by simpa using List.find?_some h⟩
  · rw [if_neg hi] at h
    simp at h

theorem sqlRows_fetch_isSome {db : List Package} {arch_a arch_b : Arch}
    (hinj : ∀ a ∈ db, ∀ b ∈ db, a.id = b.id → a = b) :
    ∀ row ∈ sqlRows db arch_a arch_b,
      (in_bulk db ((sqlRows db arch_a arch_b).map Prod.fst) row.1).isSome := by
  intro row hrow
  obtain ⟨p, hp, hc, hpr⟩ := mem_sqlRows.mp hrow
  have h1 : row.1 = p.id := pkgRows_fst hpr
  have h2 : row.1 ∈ (sqlRows db arch_a arch_b).map Prod.fst :=
    List.mem_map.mpr ⟨row, hrow, rfl⟩
  rw [in_bulk_some hinj h2 hp h1.symm]
  rfl

theorem sqlRows_fst_arch {db : List Package} {arch_a arch_b : Arch} {i : Nat}
    (hcond : ∀ p2 ∈ db, p2.id = i → p2.arch.id ≠ arch_a.id ∧ p2.arch.id ≠ arch_b.id) :
    i ∉ (sqlRows db arch_a arch_b).map Prod.fst := by
  intro hi
  obtain ⟨row, hrow, hfst⟩ := List.mem_map.mp hi
  obtain ⟨p2, hp2, hc, hpr⟩ := mem_sqlRows.mp hrow
  have h1 : row.1 = p2.id := pkgRows_fst hpr
  have h2 : p2.id = i := by rw [← h1, hfst]
  rcases hc with hc | hc
  · exact (hcond p2 hp2 h2).1 hc
  · exact (hcond p2 hp2 h2).2 hc

/-! ## Claim theorems: difference detector -/

/-- Claim C2: for same-name same-repo packages P (in the first
architecture) and Q (in the second) whose version triples differ, the
detector reports exactly one Difference for the divergence — the two
mirror rows of the symmetric self-join collapse under structural equality
to the single entry with pkg_a = P and pkg_b = Q. -/
theorem claim_c2_dedup (db : List Package) (arch_a arch_b : Arch) (P Q : Package)
    (hinj : ∀ a ∈ db, ∀ b ∈ db, a.id = b.id → a = b)
    (hP : P ∈ db) (hQ : Q ∈ db)
    (hPA : P.arch = arch_a) (hQB : Q.arch = arch_b)
    (hab : arch_a.id ≠ arch_b.id)
    (hname : P.pkgname = Q.pkgname) (hrepo : P.repo = Q.repo)
    (hver : P.pkgver ≠ Q.pkgver ∨ P.pkgrel ≠ Q.pkgrel ∨ P.epoch ≠ Q.epoch) :
    ∃ l, get_differences_info db arch_a arch_b = Except.ok l ∧
      l.count (Difference.mk P.pkgname P.repo (some P) (some Q)) = 1 := by
  have harchne : P.arch.id ≠ Q.arch.id := by
    rw [hPA, hQB]
    exact hab
  have hPQ : P ≠ Q := fun he => harchne (by rw [he])
  have hidPQ : P.id ≠ Q.id := fun he => hPQ (hinj P hP Q hQ he)
  have hjoinPQ : joinCond P Q = true := by
    simp only [joinCond, decide_eq_true_eq]
    exact ⟨hname.symm, by rw [hrepo], fun he => harchne he.symm,
      fun he => hidPQ he.symm⟩
  have hjoinQP : joinCond Q P = true := by
    simp only [joinCond, decide_eq_true_eq]
    exact ⟨hname, by rw [hrepo], harchne, hidPQ⟩
  have hvPQ : versionDiffers P Q = true := by
    simp only [versionDiffers, decide_eq_true_eq]
    exact hver
  have hvQP : versionDiffers Q P = true := by
    simp only [versionDiffers, decide_eq_true_eq]
    rcases hver with h | h | h
    · exact Or.inl (Ne.symm h)
    · exact Or.inr (Or.inl (Ne.symm h))
    · exact Or.inr (Or.inr (Ne.symm h))
  have hrowPQ : (P.id, some Q.id) ∈ sqlRows db arch_a arch_b :=
    mem_sqlRows.mpr ⟨P, hP, Or.inl (by rw [hPA]), mem_pkgRows_some hQ hjoinPQ hvPQ⟩
  have hrowQP : (Q.id, some P.id) ∈ sqlRows db arch_a arch_b :=
    mem_sqlRows.mpr ⟨Q, hQ, Or.inr (by rw [hQB]), mem_pkgRows_some hP hjoinQP hvQP⟩
  have hPid : P.id ∈ (sqlRows db arch_a arch_b).map Prod.fst :=
    List.mem_map.mpr ⟨(P.id, some Q.id), hrowPQ, rfl⟩
  have hQid : Q.id ∈ (sqlRows db arch_a arch_b).map Prod.fst :=
    List.mem_map.mpr ⟨(Q.id, some P.id), hrowQP, rfl⟩
  have hfP : in_bulk db ((sqlRows db arch_a arch_b).map Prod.fst) P.id = some P :=
    in_bulk_some hinj hPid hP rfl
  have hfQ : in_bulk db ((sqlRows db arch_a arch_b).map Prod.fst) Q.id = some Q :=
    in_bulk_some hinj hQid hQ rfl
  obtain ⟨l0, hl0⟩ := processRows_ok arch_a
    (in_bulk db ((sqlRows db arch_a arch_b).map Prod.fst))
    (sqlRows db arch_a arch_b) [] (sqlRows_fetch_isSome hinj)
  have hbdP : buildDifference arch_a
      (in_bulk db ((sqlRows db arch_a arch_b).map Prod.fst) (P.id, some Q.id).1)
      ((P.id, some Q.id).2.bind
        (in_bulk db ((sqlRows db arch_a arch_b).map Prod.fst)))
      = Except.ok (Difference.mk P.pkgname P.repo (some P) (some Q)) := by
    show buildDifference arch_a
      (in_bulk db ((sqlRows db arch_a arch_b).map Prod.fst) P.id)
      (in_bulk db ((sqlRows db arch_a arch_b).map Prod.fst) Q.id) = _
    rw [hfP, hfQ, buildDifference_some_eq hPA]
  have hmemD : Difference.mk P.pkgname P.repo (some P) (some Q) ∈ l0 :=
    processRows_mem arch_a _ (sqlRows db arch_a arch_b) [] l0 (P.id, some Q.id)
      _ hl0 hrowPQ hbdP
  have hnd : l0.Nodup := processRows_nodup arch_a _ (sqlRows db arch_a arch_b)
    [] l0 List.nodup_nil hl0
  refine ⟨List.insertionSort diffLE l0, ?_, ?_⟩
  · simp only [get_differences_info]
    rw [hl0]
  · have hperm := List.perm_insertionSort diffLE l0
    rw [hperm.count_eq]
    exact List.count_eq_one_of_mem hnd hmemD

/-- Witness for C2 at the concrete database [pkgFooA, pkgFooB]: foo is at
version 1-1 in x86_64 and 2-1 in i686. -/
theorem claim_c2_witness :
    ∃ l, get_differences_info [pkgFooA, pkgFooB] archW1 archW2 = Except.ok l ∧
      l.count (Difference.mk pkgFooA.pkgname pkgFooA.repo
        (some pkgFooA) (some pkgFooB)) = 1 :=
  claim_c2_dedup [pkgFooA, pkgFooB] archW1 archW2 pkgFooA pkgFooB (by decide)
    (by decide) (by decide) (by decide) (by decide) (by decide) (by decide)
    (by decide) (by decide)

/-- Counterexample to claim C3 as stated: when the first id of a result
pair does not resolve but the second side does, the orientation step does
not fall back to the second record — it fails with an AttributeError
(pkg_a.arch is dereferenced before the null guard), so no Difference is
produced. -/
theorem claim_c3_counterexample :
    buildDifference archW1 none (some pkgFooB)
      = Except.error "AttributeError: NoneType object has no attribute arch"
    ∧ (Except.error "AttributeError: NoneType object has no attribute arch"
        : Except String Difference)
      ≠ Except.ok (Difference.mk pkgFooB.pkgname pkgFooB.repo none (some pkgFooB)) :=
  ⟨rfl, fun h => Except.noConfusion h⟩

/-- Claim C3 (amended): when the first id's record resolves but does not
belong to the first architecture argument, the roles of pkg_a and pkg_b
are swapped (the name/repo fallback expressions always take the resolved
first record); when the first id's record does not resolve, the
orientation step raises an AttributeError instead of falling back to the
second record, whether or not the second side resolves. -/
theorem claim_c3_swap_and_null :
    (∀ (arch_a : Arch) (pa : Package) (pkg_b : Option Package), pa.arch ≠ arch_a →
      buildDifference arch_a (some pa) pkg_b
        = Except.ok ⟨pa.pkgname, pa.repo, pkg_b, some pa⟩)
    ∧ (∀ (arch_a : Arch) (pkg_b : Option Package),
      buildDifference arch_a none pkg_b
        = Except.error "AttributeError: NoneType object has no attribute arch") :=
  ⟨fun _ _ _ h => buildDifference_some_ne h, fun _ _ => rfl⟩

/-- Witness for C3 (amended) at concrete inputs: a resolved i686 record is
swapped when x86_64 is the first architecture, and an unresolved first id
raises even though the second side resolves. -/
theorem claim_c3_witness :
    buildDifference archW1 (some pkgFooB) (some pkgFooA)
      = Except.ok ⟨pkgFooB.pkgname, pkgFooB.repo, some pkgFooA, some pkgFooB⟩
    ∧ buildDifference archW1 none (some pkgFooA)
      = Except.error "AttributeError: NoneType object has no attribute arch" :=
  ⟨claim_c3_swap_and_null.1 archW1 pkgFooB (some pkgFooA) (by decide),
   claim_c3_swap_and_null.2 archW1 (some pkgFooA)⟩

/-- Counterexample to claim C4 as stated: bar exists in x86_64 (archW1)
and has no counterpart in i686 (archW2) — the only other record is a
same-version copy in arm — yet the detector reports nothing at all: the
self-join matches counterparts in every other architecture, and the
same-version arm row suppresses the missing-counterpart row. -/
theorem claim_c4_counterexample :
    pkgBarA.arch = archW1 ∧ pkgBarArm.arch = archW3 ∧ archW3 ≠ archW2 ∧
    pkgBarA.pkgname = pkgBarArm.pkgname ∧ pkgBarA.repo = pkgBarArm.repo ∧
    get_differences_info [pkgBarA, pkgBarArm] archW1 archW2 = Except.ok [] :=
  ⟨rfl, rfl, by decide, rfl, rfl, rfl⟩

/-- Claim C4 (amended): a package P of one of the two compared
architectures with no same-name same-repo counterpart in the other
compared architecture is reported exactly once with the missing side
absent, provided every same-name same-repo package of any further
architecture differs from P in version (a same-version third-architecture
package suppresses the row entirely, which the counterexample exhibits). -/
theorem claim_c4_missing (db : List Package) (arch_a arch_b : Arch) (P : Package)
    (hinj : ∀ a ∈ db, ∀ b ∈ db, a.id = b.id → a = b)
    (hP : P ∈ db)
    (hside : P.arch = arch_a ∨ P.arch = arch_b)
    (hab : arch_a.id ≠ arch_b.id)
    (hno : ∀ q ∈ db, q.pkgname = P.pkgname → q.repo.id = P.repo.id →
      q.arch.id ≠ P.arch.id →
      (q.arch.id ≠ arch_a.id ∧ q.arch.id ≠ arch_b.id) ∧
        (P.pkgver ≠ q.pkgver ∨ P.pkgrel ≠ q.pkgrel ∨ P.epoch ≠ q.epoch)) :
    ∃ l, get_differences_info db arch_a arch_b = Except.ok l ∧
      l.count (if P.arch = arch_a
        then Difference.mk P.pkgname P.repo (some P) none
        else Difference.mk P.pkgname P.repo none (some P)) = 1 ∧
      ∀ d ∈ l, (d.pkg_a = some P ∨ d.pkg_b = some P) →
        d = (if P.arch = arch_a
          then Difference.mk P.pkgname P.repo (some P) none
          else Difference.mk P.pkgname P.repo none (some P)) := by
  have harchcond : P.arch.id = arch_a.id ∨ P.arch.id = arch_b.id := by
    rcases hside with h | h
    · exact Or.inl (by rw [h])
    · exact Or.inr (by rw [h])
  -- every package joined against P is in a third architecture and
  -- therefore never fetched
  have hqnone : ∀ q ∈ db, joinCond P q = true →
      in_bulk db ((sqlRows db arch_a arch_b).map Prod.fst) q.id = none := by
    intro q hq hj
    simp only [joinCond, decide_eq_true_eq] at hj
    obtain ⟨hn, hr, ha, _⟩ := hj
    have h3 := (hno q hq hn hr ha).1
    refine in_bulk_none_of_not_mem (sqlRows_fst_arch ?_)
    intro p2 hp2 hpi
    have : p2 = q := hinj p2 hp2 q hq hpi
    rw [this]
    exact h3
  -- the Difference the claim expects
  have hbdD : buildDifference arch_a (some P) none
      = Except.ok (if P.arch = arch_a
        then Difference.mk P.pkgname P.repo (some P) none
        else Difference.mk P.pkgname P.repo none (some P)) := by
    by_cases hPA : P.arch = arch_a
    · rw [if_pos hPA]
      exact buildDifference_some_eq hPA
    · rw [if_neg hPA]
      exact buildDifference_some_ne hPA
  -- there is a row for P whose second side resolves to none
  have hProw : ∃ row ∈ sqlRows db arch_a arch_b, row.1 = P.id ∧
      row.2.bind (in_bulk db ((sqlRows db arch_a arch_b).map Prod.fst)) = none := by
    cases hflt : db.filter (fun q => joinCond P q) with
    | nil =>
      refine ⟨(P.id, none), mem_sqlRows.mpr ⟨P, hP, harchcond,
        mem_pkgRows_none hflt⟩, rfl, rfl⟩
    | cons q0 rest =>
      have hq0f : q0 ∈ db.filter (fun q => joinCond P q) := by
        rw [hflt]
        exact List.mem_cons_self _ _
      obtain ⟨hq0, hj0⟩ := List.mem_filter.mp hq0f
      have hv0 : versionDiffers P q0 = true := by
        simp only [joinCond, decide_eq_true_eq] at hj0
        obtain ⟨hn, hr, ha, _⟩ := hj0
        simp only [versionDiffers, decide_eq_true_eq]
        exact (hno q0 hq0 hn hr ha).2
      refine ⟨(P.id, some q0.id), mem_sqlRows.mpr ⟨P, hP, harchcond,
        mem_pkgRows_some hq0 hj0 hv0⟩, rfl, ?_⟩
      show in_bulk db ((sqlRows db arch_a arch_b).map Prod.fst) q0.id = none
      exact hqnone q0 hq0 hj0
  obtain ⟨rowP, hrowP, hrowP1, hrowP2⟩ := hProw
  have hPid : P.id ∈ (sqlRows db arch_a arch_b).map Prod.fst :=
    List.mem_map.mpr ⟨rowP, hrowP, hrowP1⟩
  have hfP : in_bulk db ((sqlRows db arch_a arch_b).map Prod.fst) P.id = some P :=
    in_bulk_some hinj hPid hP rfl
  obtain ⟨l0, hl0⟩ := processRows_ok arch_a
    (in_bulk db ((sqlRows db arch_a arch_b).map Prod.fst))
    (sqlRows db arch_a arch_b) [] (sqlRows_fetch_isSome hinj)
  have hbdProw : buildDifference arch_a
      (in_bulk db ((sqlRows db arch_a arch_b).map Prod.fst) rowP.1)
      (rowP.2.bind (in_bulk db ((sqlRows db arch_a arch_b).map Prod.fst)))
      = Except.ok (if P.arch = arch_a
        then Difference.mk P.pkgname P.repo (some P) none
        else Difference.mk P.pkgname P.repo none (some P)) := by
    rw [hrowP1, hrowP2, hfP]
    exact hbdD
  have hmemD := processRows_mem arch_a _ (sqlRows db arch_a arch_b) [] l0 rowP
    _ hl0 hrowP hbdProw
  have hnd : l0.Nodup := processRows_nodup arch_a _ (sqlRows db arch_a arch_b)
    [] l0 List.nodup_nil hl0
  -- every row of the result set that mentions P builds the same Difference
  have hallP : ∀ d ∈ l0, (d.pkg_a = some P ∨ d.pkg_b = some P) →
      d = (if P.arch = arch_a
        then Difference.mk P.pkgname P.repo (some P) none
        else Difference.mk P.pkgname P.repo none (some P)) := by
    intro d hd hdP
    rcases processRows_src arch_a _ (sqlRows db arch_a arch_b) [] l0 hl0 d hd with
      h1 | ⟨row, hrow, hbd⟩
    · simp at h1
    · -- the second component of a row never resolves to P
      have hsndP : row.2.bind
          (in_bulk db ((sqlRows db arch_a arch_b).map Prod.fst)) ≠ some P := by
        intro hcontra
        obtain ⟨j, hj1, hj2⟩ := Option.bind_eq_some.mp hcontra
        have hPj : P.id = j := (in_bulk_eq_some_inv hj2).2
        obtain ⟨p2, hp2, hc2, hpr2⟩ := mem_sqlRows.mp hrow
        obtain ⟨q2, hq2, hjoin2, _, hjq2⟩ := pkgRows_some hpr2 hj1
        have hq2P : q2 = P := hinj q2 hq2 P hP (by rw [← hjq2, ← hPj])
        subst hq2P
        simp only [joinCond, decide_eq_true_eq] at hjoin2
        obtain ⟨hn2, hr2, ha2, _⟩ := hjoin2
        have h4 := (hno p2 hp2 hn2.symm (by rw [hr2]) (fun he => ha2 he.symm)).1
        rcases hc2 with hc2 | hc2
        · exact h4.1 hc2
        · exact h4.2 hc2
      obtain ⟨pa, hpa, hdn, hdr, hcase⟩ := buildDifference_ok_inv hbd
      have hpaP : pa = P := by
        rcases hcase with ⟨_, hda, hdb⟩ | ⟨_, hda, hdb⟩
        · rcases hdP with hx | hx
          · rw [hx] at hda
            exact (Option.some.injEq .. ▸ hda).symm ▸ rfl
          · rw [hx] at hdb
            exact absurd hdb.symm hsndP
        · rcases hdP with hx | hx
          · rw [hx] at hda
            exact absurd hda.symm hsndP
          · rw [hx] at hdb
            exact Option.some_inj.mp hdb.symm
      subst hpaP
      have hrow1 : row.1 = pa.id := by
        have := (in_bulk_eq_some_inv hpa).2
        rw [this]
      obtain ⟨p2, hp2, hc2, hpr2⟩ := mem_sqlRows.mp hrow
      have hp2P : p2 = pa := by
        refine hinj p2 hp2 pa hP ?_
        rw [← pkgRows_fst hpr2, hrow1]
      subst hp2P
      -- the row for P either has no second component or a never-fetched one
      have hsnd : row.2.bind
          (in_bulk db ((sqlRows db arch_a arch_b).map Prod.fst)) = none := by
        cases hr2 : row.2 with
        | none => rfl
        | some j =>
          obtain ⟨q2, hq2, hjoin2, _, hjq2⟩ := pkgRows_some hpr2 hr2
          show (some j).bind _ = none
          simp only [Option.some_bind]
          rw [hjq2]
          exact hqnone q2 hq2 hjoin2
      rw [hrow1, hfP, hsnd] at hbd
      rw [hbd] at hbdD
      simpa using hbdD
  refine ⟨List.insertionSort diffLE l0, ?_, ?_, ?_⟩
  · simp only [get_differences_info]
    rw [hl0]
  · rw [(List.perm_insertionSort diffLE l0).count_eq]
    exact List.count_eq_one_of_mem hnd hmemD
  · intro d hd hdP
    exact hallP d ((List.perm_insertionSort diffLE l0).mem_iff.mp hd) hdP

/-- Witness for C4 (amended) at the concrete singleton database
[pkgBarA]: bar exists only in x86_64. -/
theorem claim_c4_witness :
    ∃ l, get_differences_info [pkgBarA] archW1 archW2 = Except.ok l ∧
      l.count (if pkgBarA.arch = archW1
        then Difference.mk pkgBarA.pkgname pkgBarA.repo (some pkgBarA) none
        else Difference.mk pkgBarA.pkgname pkgBarA.repo none (some pkgBarA)) = 1 ∧
      ∀ d ∈ l, (d.pkg_a = some pkgBarA ∨ d.pkg_b = some pkgBarA) →
        d = (if pkgBarA.arch = archW1
          then Difference.mk pkgBarA.pkgname pkgBarA.repo (some pkgBarA) none
          else Difference.mk pkgBarA.pkgname pkgBarA.repo none (some pkgBarA)) :=
  claim_c4_missing [pkgBarA] archW1 archW2 pkgBarA (by decide) (by decide)
    (by decide) (by decide) (by decide)

/-! ## Group aggregator lemmas -/

theorem lookup2_eq_none {m : List (String × List (String × GroupEntry))}
    {a : String} (n : String) (h : alLookup m a = none) : lookup2 m a n = none := by
  simp [lookup2, h]

theorem lookup2_eq_some {m : List (String × List (String × GroupEntry))}
    {a : String} {ag : List (String × GroupEntry)} (n : String)
    (h : alLookup m a = some ag) : lookup2 m a n = alLookup ag n := by
  simp [lookup2, h]

theorem lookup2_bucket_step_self (m : List (String × List (String × GroupEntry)))
    (grp : GroupEntry) :
    lookup2 (alUpdate m grp.arch
        (alUpdate ((alLookup m grp.arch).getD []) grp.name grp))
      grp.arch grp.name = some grp := by
  rw [lookup2_eq_some grp.name (alLookup_alUpdate_self m grp.arch _)]
  exact alLookup_alUpdate_self _ _ _

theorem lookup2_bucket_step_ne (m : List (String × List (String × GroupEntry)))
    (grp : GroupEntry) (a n : String) (h : ¬(grp.arch = a ∧ grp.name = n)) :
    lookup2 (alUpdate m grp.arch
        (alUpdate ((alLookup m grp.arch).getD []) grp.name grp)) a n
      = lookup2 m a n := by
  by_cases ha : grp.arch = a
  · have hn : grp.name ≠ n := fun he => h ⟨ha, he⟩
    subst ha
    rw [lookup2_eq_some n (alLookup_alUpdate_self m grp.arch _)]
    rw [alLookup_alUpdate_ne _ _ _ _ hn]
    cases hl : alLookup m grp.arch with
    | none =>
      rw [lookup2_eq_none n hl]
      simp [hl, alLookup]
    | some ag =>
      rw [lookup2_eq_some n hl]
      simp [hl]
  · unfold lookup2
    rw [alLookup_alUpdate_ne _ _ _ _ ha]

theorem bucketRows_cons (grp : GroupEntry) (rest : List GroupEntry)
    (m : List (String × List (String × GroupEntry))) :
    bucketRows (grp :: rest) m = bucketRows rest
      (alUpdate m grp.arch
        (alUpdate ((alLookup m grp.arch).getD []) grp.name grp)) := rfl

theorem bucketRows_lookup_preserve (rows : List GroupEntry) (a n : String) :
    ∀ m, (∀ r ∈ rows, ¬(r.arch = a ∧ r.name = n)) →
      lookup2 (bucketRows rows m) a n = lookup2 m a n := by
  induction rows with
  | nil => intro m _; rfl
  | cons grp rest ih =>
    intro m h
    rw [bucketRows_cons, ih _ (fun r hr => h r (List.mem_cons_of_mem _ hr))]
    exact lookup2_bucket_step_ne m grp a n (h grp (List.mem_cons_self _ _))

theorem bucketRows_lookup_unique (rows : List GroupEntry) (r0 : GroupEntry) :
    ∀ m, (r0 ∈ rows ∨ lookup2 m r0.arch r0.name = some r0) →
      (∀ r2 ∈ rows, r2.arch = r0.arch → r2.name = r0.name → r2 = r0) →
      lookup2 (bucketRows rows m) r0.arch r0.name = some r0 := by
  induction rows with
  | nil =>
    intro m hm _
    rcases hm with hm | hm
    · simp at hm
    · exact hm
  | cons grp rest ih =>
    intro m hm huniq
    rw [bucketRows_cons]
    by_cases hk : grp.arch = r0.arch ∧ grp.name = r0.name
    · have hg : grp = r0 := huniq grp (List.mem_cons_self _ _) hk.1 hk.2
      subst hg
      refine ih _ (Or.inr ?_) (fun r2 hr2 ha hn => huniq r2 (List.mem_cons_of_mem _ hr2) ha hn)
      exact lookup2_bucket_step_self m grp
    · refine ih _ ?_ (fun r2 hr2 ha hn => huniq r2 (List.mem_cons_of_mem _ hr2) ha hn)
      rcases hm with hm | hm
      · rcases List.mem_cons.mp hm with hm2 | hm2
        · exact absurd (by rw [hm2]; exact ⟨rfl, rfl⟩ : grp.arch = r0.arch ∧ grp.name = r0.name) hk
        · exact Or.inl hm2
      · refine Or.inr ?_
        rw [lookup2_bucket_step_ne m grp _ _ hk]
        exact hm

theorem bucketRows_bucket_isSome (rows : List GroupEntry) (a : String) :
    ∀ m, ((∃ x ∈ rows, x.arch = a) ∨ (alLookup m a).isSome) →
      (alLookup (bucketRows rows m) a).isSome := by
  induction rows with
  | nil =>
    intro m hm
    rcases hm with ⟨x, hx, _⟩ | hm
    · simp at hx
    · exact hm
  | cons grp rest ih =>
    intro m hm
    rw [bucketRows_cons]
    by_cases ha : grp.arch = a
    · refine ih _ (Or.inr ?_)
      subst ha
      rw [alLookup_alUpdate_self]
      rfl
    · refine ih _ ?_
      rcases hm with ⟨x, hx, hxa⟩ | hm
      · rcases List.mem_cons.mp hx with hx2 | hx2
        · exact absurd (by rw [← hx2]; exact hxa) ha
        · exact Or.inl ⟨x, hx2, hxa⟩
      · refine Or.inr ?_
        rw [alLookup_alUpdate_ne _ _ _ _ ha]
        exact hm

theorem bucketRows_wf (rows : List GroupEntry) :
    ∀ m, groupMapWF m → groupMapWF (bucketRows rows m) := by
  induction rows with
  | nil => intro m h; exact h
  | cons grp rest ih =>
    intro m h
    rw [bucketRows_cons]
    refine ih _ ⟨keys_alUpdate_nodup h.1, ?_⟩
    intro q hq
    rcases mem_alUpdate hq with hq2 | hq2
    · subst hq2
      have hinner : ((alLookup m grp.arch).getD [] |>.map Prod.fst).Nodup ∧
          ∀ p ∈ (alLookup m grp.arch).getD [], p.1 = p.2.name ∧ p.2.arch = grp.arch := by
        cases hl : alLookup m grp.arch with
        | none => simp
        | some ag =>
          have := h.2 (grp.arch, ag) (alLookup_eq_some_mem hl)
          simpa using this
      constructor
      · exact keys_alUpdate_nodup hinner.1
      · intro p hp
        rcases mem_alUpdate hp with hp2 | hp2
        · subst hp2
          exact ⟨rfl, rfl⟩
        · exact hinner.2 p hp2
    · exact h.2 q hq2

theorem promoteAny_none {m : List (String × List (String × GroupEntry))}
    (h : alLookup m "any" = none) : promoteAny m = m := by
  unfold promoteAny
  rw [h]

theorem promoteAny_some {m : List (String × List (String × GroupEntry))}
    {A : List (String × GroupEntry)} (h : alLookup m "any" = some A) :
    promoteAny m = (alErase m "any").map (fun p => (p.1, mergeAnyInto A p.1 p.2)) := by
  unfold promoteAny
  rw [h]

theorem mergeAnyInto_cons (pair : String × GroupEntry)
    (rest : List (String × GroupEntry)) (arch : String)
    (B : List (String × GroupEntry)) :
    mergeAnyInto (pair :: rest) arch B
      = mergeAnyInto rest arch (mergeAnyInto [pair] arch B) := rfl

theorem mergeAnyInto_single_found (pair : String × GroupEntry) (arch : String)
    (B : List (String × GroupEntry)) (found : GroupEntry)
    (hl : alLookup B pair.2.name = some found) :
    mergeAnyInto [pair] arch B
      = alUpdate B pair.2.name
          { found with
            count := found.count + pair.2.count,
            last_update := if found.last_update < pair.2.last_update
              then pair.2.last_update else found.last_update } := by
  have h0 : mergeAnyInto [pair] arch B
      = match alLookup B pair.2.name with
        | some found => alUpdate B pair.2.name
            { found with
              count := found.count + pair.2.count,
              last_update := if found.last_update < pair.2.last_update
                then pair.2.last_update else found.last_update }
        | none => alUpdate B pair.2.name { pair.2 with arch := arch } := rfl
  rw [h0, hl]

theorem mergeAnyInto_single_new (pair : String × GroupEntry) (arch : String)
    (B : List (String × GroupEntry))
    (hl : alLookup B pair.2.name = none) :
    mergeAnyInto [pair] arch B
      = alUpdate B pair.2.name { pair.2 with arch := arch } := by
  have h0 : mergeAnyInto [pair] arch B
      = match alLookup B pair.2.name with
        | some found => alUpdate B pair.2.name
            { found with
              count := found.count + pair.2.count,
              last_update := if found.last_update < pair.2.last_update
                then pair.2.last_update else found.last_update }
        | none => alUpdate B pair.2.name { pair.2 with arch := arch } := rfl
  rw [h0, hl]

theorem mergeAnyInto_append (l1 l2 : List (String × GroupEntry)) (arch : String)
    (B : List (String × GroupEntry)) :
    mergeAnyInto (l1 ++ l2) arch B = mergeAnyInto l2 arch (mergeAnyInto l1 arch B) := by
  simp [mergeAnyInto, List.foldl_append]

theorem mergeAnyInto_lookup_notin (anyGroups : List (String × GroupEntry))
    (arch n : String) :
    ∀ B, (∀ p ∈ anyGroups, p.2.name ≠ n) →
      alLookup (mergeAnyInto anyGroups arch B) n = alLookup B n := by
  induction anyGroups with
  | nil => intro B _; rfl
  | cons pair rest ih =>
    intro B hnot
    rw [mergeAnyInto_cons, ih _ (fun p hp => hnot p (List.mem_cons_of_mem _ hp))]
    have hne := hnot pair (List.mem_cons_self _ _)
    cases hl : alLookup B pair.2.name with
    | some found =>
      rw [mergeAnyInto_single_found pair arch B found hl]
      exact alLookup_alUpdate_ne _ _ _ _ hne
    | none =>
      rw [mergeAnyInto_single_new pair arch B hl]
      exact alLookup_alUpdate_ne _ _ _ _ hne

theorem mergeAnyInto_lookup_found (A1 A2 : List (String × GroupEntry))
    (arch : String) (anyRow found : GroupEntry)
    (h1 : ∀ p ∈ A1, p.2.name ≠ anyRow.name)
    (h2 : ∀ p ∈ A2, p.2.name ≠ anyRow.name)
    (B : List (String × GroupEntry))
    (hB : alLookup B anyRow.name = some found) :
    alLookup (mergeAnyInto (A1 ++ (anyRow.name, anyRow) :: A2) arch B) anyRow.name =
      some { found with
             count := found.count + anyRow.count,
             last_update := if found.last_update < anyRow.last_update
               then anyRow.last_update else found.last_update } := by
  rw [mergeAnyInto_append, mergeAnyInto_cons,
    mergeAnyInto_lookup_notin A2 arch anyRow.name _ h2]
  have hmid : alLookup (mergeAnyInto A1 arch B)
      ((anyRow.name, anyRow) : String × GroupEntry).2.name = some found := by
    rw [mergeAnyInto_lookup_notin A1 arch anyRow.name B h1]
    exact hB
  rw [mergeAnyInto_single_found (anyRow.name, anyRow) arch
    (mergeAnyInto A1 arch B) found hmid]
  exact alLookup_alUpdate_self _ _ _

theorem mergeAnyInto_lookup_new (A1 A2 : List (String × GroupEntry))
    (arch : String) (anyRow : GroupEntry)
    (h1 : ∀ p ∈ A1, p.2.name ≠ anyRow.name)
    (h2 : ∀ p ∈ A2, p.2.name ≠ anyRow.name)
    (B : List (String × GroupEntry))
    (hB : alLookup B anyRow.name = none) :
    alLookup (mergeAnyInto (A1 ++ (anyRow.name, anyRow) :: A2) arch B) anyRow.name =
      some { anyRow with arch := arch } := by
  rw [mergeAnyInto_append, mergeAnyInto_cons,
    mergeAnyInto_lookup_notin A2 arch anyRow.name _ h2]
  have hmid : alLookup (mergeAnyInto A1 arch B)
      ((anyRow.name, anyRow) : String × GroupEntry).2.name = none := by
    rw [mergeAnyInto_lookup_notin A1 arch anyRow.name B h1]
    exact hB
  rw [mergeAnyInto_single_new (anyRow.name, anyRow) arch
    (mergeAnyInto A1 arch B) hmid]
  exact alLookup_alUpdate_self _ _ _

theorem mergeAnyInto_wf (anyGroups : List (String × GroupEntry)) (arch : String) :
    ∀ B, ((B.map Prod.fst).Nodup ∧ ∀ p ∈ B, p.1 = p.2.name ∧ p.2.arch = arch) →
      ((mergeAnyInto anyGroups arch B).map Prod.fst).Nodup ∧
        ∀ p ∈ mergeAnyInto anyGroups arch B, p.1 = p.2.name ∧ p.2.arch = arch := by
  induction anyGroups with
  | nil => intro B hB; exact hB
  | cons pair rest ih =>
    intro B hB
    rw [mergeAnyInto_cons]
    refine ih _ ?_
    cases hl : alLookup B pair.2.name with
    | some found =>
      rw [mergeAnyInto_single_found pair arch B found hl]
      refine ⟨keys_alUpdate_nodup hB.1, ?_⟩
      intro p hp
      rcases mem_alUpdate hp with hp2 | hp2
      · subst hp2
        have hfm := hB.2 (pair.2.name, found) (alLookup_eq_some_mem hl)
        exact ⟨hfm.1, hfm.2⟩
      · exact hB.2 p hp2
    | none =>
      rw [mergeAnyInto_single_new pair arch B hl]
      refine ⟨keys_alUpdate_nodup hB.1, ?_⟩
      intro p hp
      rcases mem_alUpdate hp with hp2 | hp2
      · subst hp2
        exact ⟨rfl, rfl⟩
      · exact hB.2 p hp2

theorem flattenGroups_eq (ia : Option (List String))
    (m : List (String × List (String × GroupEntry))) :
    flattenGroups ia m
      = (m.filter (fun p => includePass ia p.1)).flatMap
          (fun p => p.2.map Prod.snd) := by
  have haux : ∀ (m2 : List (String × List (String × GroupEntry)))
      (acc : List GroupEntry),
      m2.foldl (fun acc p =>
        if includePass ia p.1 then acc ++ p.2.map Prod.snd else acc) acc
      = acc ++ (m2.filter (fun p => includePass ia p.1)).flatMap
          (fun p => p.2.map Prod.snd) := by
    intro m2
    induction m2 with
    | nil => intro acc; simp
    | cons q rest ih =>
      intro acc
      rw [List.foldl_cons]
      by_cases hq : includePass ia q.1
      · rw [if_pos hq, ih, List.filter_cons, if_pos (by simpa using hq)]
        simp [List.append_assoc]
      · rw [if_neg hq, ih, List.filter_cons,
          if_neg (by simpa using hq)]
  exact haux m []

theorem mem_flattenGroups {ia : Option (List String)}
    {m : List (String × List (String × GroupEntry))} {e : GroupEntry} :
    e ∈ flattenGroups ia m ↔ ∃ q ∈ m, includePass ia q.1 = true ∧
      ∃ p ∈ q.2, p.2 = e := by
  rw [flattenGroups_eq]
  simp only [List.mem_flatMap, List.mem_filter, List.mem_map]
  constructor
  · rintro ⟨q, ⟨hq, hqi⟩, p, hp, hpe⟩
    exact ⟨q, hq, hqi, p, hp, hpe⟩
  · rintro ⟨q, hq, hqi, p, hp, hpe⟩
    exact ⟨q, ⟨hq, hqi⟩, p, hp, hpe⟩

/-! ## Claim theorems: group aggregator -/

/-- Claim C5: a group present both under any (count c1, timestamp t1) and
under a concrete architecture X (count c2, timestamp t2) aggregates to a
single (G, X) entry with count c1 + c2 and last_update max t1 t2. -/
theorem claim_c5_additivity (rows : List GroupEntry) (ia : Option (List String))
    (G X : String) (c1 t1 c2 t2 : Nat)
    (h1 : GroupEntry.mk G "any" c1 t1 ∈ rows)
    (h2 : GroupEntry.mk G X c2 t2 ∈ rows)
    (hX : X ≠ "any")
    (huniqA : ∀ r ∈ rows, r.arch = "any" → r.name = G →
      r = GroupEntry.mk G "any" c1 t1)
    (huniqX : ∀ r ∈ rows, r.arch = X → r.name = G → r = GroupEntry.mk G X c2 t2)
    (hpass : includePass ia X = true) :
    ∃ e ∈ get_group_info ia rows,
      e.name = G ∧ e.arch = X ∧ e.count = c1 + c2 ∧ e.last_update = max t1 t2 ∧
      ∀ e2 ∈ get_group_info ia rows, e2.name = G → e2.arch = X → e2 = e := by
  have hwf : groupMapWF (bucketRows rows []) :=
    bucketRows_wf rows [] ⟨by simp, by simp⟩
  have hanyR : lookup2 (bucketRows rows []) "any" G
      = some (GroupEntry.mk G "any" c1 t1) :=
    bucketRows_lookup_unique rows (GroupEntry.mk G "any" c1 t1) []
      (Or.inl h1) huniqA
  have hxR : lookup2 (bucketRows rows []) X G = some (GroupEntry.mk G X c2 t2) :=
    bucketRows_lookup_unique rows (GroupEntry.mk G X c2 t2) [] (Or.inl h2) huniqX
  obtain ⟨A, hA1⟩ : ∃ A, alLookup (bucketRows rows []) "any" = some A := by
    cases hl : alLookup (bucketRows rows []) "any" with
    | none =>
      rw [lookup2_eq_none G hl] at hanyR
      exact absurd hanyR (by simp)
    | some A => exact ⟨A, rfl⟩
  have hA2 : alLookup A G = some (GroupEntry.mk G "any" c1 t1) := by
    rw [lookup2_eq_some G hA1] at hanyR
    exact hanyR
  obtain ⟨B, hB1⟩ : ∃ B, alLookup (bucketRows rows []) X = some B := by
    cases hl : alLookup (bucketRows rows []) X with
    | none =>
      rw [lookup2_eq_none G hl] at hxR
      exact absurd hxR (by simp)
    | some B => exact ⟨B, rfl⟩
  have hB2 : alLookup B G = some (GroupEntry.mk G X c2 t2) := by
    rw [lookup2_eq_some G hB1] at hxR
    exact hxR
  have hAwf := hwf.2 ("any", A) (alLookup_eq_some_mem hA1)
  have hAnd : (A.map Prod.fst).Nodup := hAwf.1
  have hAprop : ∀ p ∈ A, p.1 = p.2.name ∧ p.2.arch = "any" := hAwf.2
  obtain ⟨A1, A2, hAeq, hA1k, hA2k⟩ := alLookup_split hAnd hA2
  have hA1n : ∀ p ∈ A1, p.2.name ≠ (GroupEntry.mk G "any" c1 t1).name := by
    intro p hp
    have hkey := (hAprop p (by rw [hAeq]; exact List.mem_append_left _ hp)).1
    rw [← hkey]
    exact hA1k p hp
  have hA2n : ∀ p ∈ A2, p.2.name ≠ (GroupEntry.mk G "any" c1 t1).name := by
    intro p hp
    have hkey := (hAprop p (by
      rw [hAeq]
      exact List.mem_append_right _ (List.mem_cons_of_mem _ hp))).1
    rw [← hkey]
    exact hA2k p hp
  have hBXlookup : alLookup (promoteAny (bucketRows rows [])) X
      = some (mergeAnyInto A X B) := by
    rw [promoteAny_some hA1, alLookup_mapVal, alLookup_alErase,
      if_neg (fun he => hX he.symm), hB1]
    rfl
  have hcomb : alLookup (mergeAnyInto A X B) G
      = some (GroupEntry.mk G X (c2 + c1) (if t2 < t1 then t1 else t2)) := by
    rw [hAeq]
    exact mergeAnyInto_lookup_found A1 A2 X (GroupEntry.mk G "any" c1 t1)
      (GroupEntry.mk G X c2 t2) hA1n hA2n B hB2
  have hentry : GroupEntry.mk G X (c2 + c1) (if t2 < t1 then t1 else t2)
      ∈ flattenGroups ia (promoteAny (bucketRows rows [])) :=
    mem_flattenGroups.mpr ⟨(X, mergeAnyInto A X B),
      alLookup_eq_some_mem hBXlookup, hpass,
      (G, GroupEntry.mk G X (c2 + c1) (if t2 < t1 then t1 else t2)),
      alLookup_eq_some_mem hcomb, rfl⟩
  have hWFprom : ∀ q0 ∈ alErase (bucketRows rows []) "any",
      ((mergeAnyInto A q0.1 q0.2).map Prod.fst).Nodup ∧
      ∀ p ∈ mergeAnyInto A q0.1 q0.2, p.1 = p.2.name ∧ p.2.arch = q0.1 := by
    intro q0 hq0
    have hq0wf := hwf.2 q0 (mem_alErase hq0).1
    exact mergeAnyInto_wf A q0.1 q0.2 ⟨hq0wf.1, hq0wf.2⟩
  have huniq_out : ∀ e2 ∈ flattenGroups ia (promoteAny (bucketRows rows [])),
      e2.name = G → e2.arch = X →
      e2 = GroupEntry.mk G X (c2 + c1) (if t2 < t1 then t1 else t2) := by
    intro e2 he2 hn2 ha2
    obtain ⟨q, hq, _, p, hp, hpe⟩ := mem_flattenGroups.mp he2
    rw [promoteAny_some hA1] at hq
    obtain ⟨q0, hq0, hq0e⟩ := List.mem_map.mp hq
    have hmwf := hWFprom q0 hq0
    rw [← hq0e] at hp
    have hpwf := hmwf.2 p hp
    have harch : q0.1 = X := by
      rw [← ha2, ← hpe]
      exact hpwf.2.symm
    have hlookup0 : alLookup (bucketRows rows []) q0.1 = some q0.2 := by
      apply alLookup_mem_nodup hwf.1
      exact (mem_alErase hq0).1
    have hq0B : q0.2 = B := by
      have h3 := hlookup0
      rw [harch, hB1] at h3
      exact (Option.some_inj.mp h3).symm
    have hpkey : p.1 = G := by
      rw [hpwf.1, hpe, hn2]
    have hpmem : ((G : String), p.2) ∈ mergeAnyInto A q0.1 q0.2 := by
      rw [← hpkey]
      exact hp
    have hlookupP : alLookup (mergeAnyInto A q0.1 q0.2) G = some p.2 :=
      alLookup_mem_nodup hmwf.1 hpmem
    rw [harch, hq0B, hcomb] at hlookupP
    rw [← hpe]
    exact (Option.some_inj.mp hlookupP).symm
  have hmem_out : GroupEntry.mk G X (c2 + c1) (if t2 < t1 then t1 else t2)
      ∈ get_group_info ia rows := by
    unfold get_group_info
    exact (List.perm_insertionSort groupLE _).mem_iff.mpr hentry
  refine ⟨GroupEntry.mk G X (c2 + c1) (if t2 < t1 then t1 else t2), hmem_out,
    rfl, rfl, Nat.add_comm c2 c1, ?_, ?_⟩
  · show (if t2 < t1 then t1 else t2) = max t1 t2
    split <;> omega
  intro e2 he2 hn2 ha2
  unfold get_group_info at he2
  exact huniq_out e2 ((List.perm_insertionSort groupLE _).mem_iff.mp he2) hn2 ha2

/-- Witness for C5 at the concrete rows rowsW5: group g appears under any
with count 2 / timestamp 5 and under x86_64 with count 3 / timestamp 4. -/
theorem claim_c5_witness :
    ∃ e ∈ get_group_info none rowsW5,
      e.name = "g" ∧ e.arch = "x86_64" ∧ e.count = 2 + 3 ∧
      e.last_update = max 5 4 ∧
      ∀ e2 ∈ get_group_info none rowsW5,
        e2.name = "g" → e2.arch = "x86_64" → e2 = e :=
  claim_c5_additivity rowsW5 none "g" "x86_64" 2 5 3 4 (by decide) (by decide)
    (by decide) (by decide) (by decide) (by decide)

/-- Claim C6: no aggregated entry carries architecture any, and a group
appearing only under any is synthesized into every concrete architecture
present in the input (passing the filter), with its architecture rewritten
and its count preserved. -/
theorem claim_c6_any_promotion (rows : List GroupEntry)
    (ia : Option (List String)) :
    (∀ e ∈ get_group_info ia rows, e.arch ≠ "any")
    ∧ (∀ (anyRow xr : GroupEntry) (X : String),
        anyRow ∈ rows → anyRow.arch = "any" →
        (∀ r ∈ rows, r.name = anyRow.name → r = anyRow) →
        xr ∈ rows → xr.arch = X → X ≠ "any" → includePass ia X = true →
        ∃ e ∈ get_group_info ia rows,
          e.name = anyRow.name ∧ e.arch = X ∧ e.count = anyRow.count) := by
  have hwf : groupMapWF (bucketRows rows []) :=
    bucketRows_wf rows [] ⟨by simp, by simp⟩
  constructor
  · intro e he
    unfold get_group_info at he
    have he2 := (List.perm_insertionSort groupLE _).mem_iff.mp he
    obtain ⟨q, hq, _, p, hp, hpe⟩ := mem_flattenGroups.mp he2
    cases halt : alLookup (bucketRows rows []) "any" with
    | none =>
      rw [promoteAny_none halt] at hq
      have hwfq := hwf.2 q hq
      have harch : e.arch = q.1 := by
        rw [← hpe]
        exact (hwfq.2 p hp).2
      intro hcontra
      rw [hcontra] at harch
      obtain ⟨w, hw⟩ := exists_alLookup_of_mem
        (show (q.1, q.2) ∈ bucketRows rows [] from hq)
      rw [← harch, halt] at hw
      exact Option.noConfusion hw
    | some A =>
      rw [promoteAny_some halt] at hq
      obtain ⟨q0, hq0, hq0e⟩ := List.mem_map.mp hq
      have hkey := (mem_alErase hq0).2
      have hq0wf := hwf.2 q0 (mem_alErase hq0).1
      have hmwf := mergeAnyInto_wf A q0.1 q0.2 ⟨hq0wf.1, hq0wf.2⟩
      rw [← hq0e] at hp
      have harch : e.arch = q0.1 := by
        rw [← hpe]
        exact (hmwf.2 p hp).2
      rw [harch]
      exact hkey
  · intro anyRow xr X hmem harchany huniq hxr hxrX hXne hpass
    have hanyR : lookup2 (bucketRows rows []) "any" anyRow.name = some anyRow := by
      have h0 := bucketRows_lookup_unique rows anyRow [] (Or.inl hmem)
        (fun r2 hr2 _ hn => huniq r2 hr2 hn)
      rw [← harchany]
      exact h0
    obtain ⟨A, hA1⟩ : ∃ A, alLookup (bucketRows rows []) "any" = some A := by
      cases hl : alLookup (bucketRows rows []) "any" with
      | none =>
        rw [lookup2_eq_none anyRow.name hl] at hanyR
        exact absurd hanyR (by simp)
      | some A => exact ⟨A, rfl⟩
    have hA2 : alLookup A anyRow.name = some anyRow := by
      rw [lookup2_eq_some anyRow.name hA1] at hanyR
      exact hanyR
    have hXbucket : (alLookup (bucketRows rows []) X).isSome :=
      bucketRows_bucket_isSome rows X [] (Or.inl ⟨xr, hxr, hxrX⟩)
    obtain ⟨B, hB1⟩ := Option.isSome_iff_exists.mp hXbucket
    have hBG : alLookup B anyRow.name = none := by
      have hpres : lookup2 (bucketRows rows []) X anyRow.name
          = lookup2 [] X anyRow.name := by
        apply bucketRows_lookup_preserve
        intro r hr hcontra
        have hr2 := huniq r hr hcontra.2
        rw [hr2] at hcontra
        exact hXne (harchany.symm.trans hcontra.1).symm
      rw [lookup2_eq_some anyRow.name hB1] at hpres
      exact hpres
    have hAwf := hwf.2 ("any", A) (alLookup_eq_some_mem hA1)
    have hAnd : (A.map Prod.fst).Nodup := hAwf.1
    have hAprop : ∀ p ∈ A, p.1 = p.2.name ∧ p.2.arch = "any" := hAwf.2
    obtain ⟨A1, A2, hAeq, hA1k, hA2k⟩ := alLookup_split hAnd hA2
    have hA1n : ∀ p ∈ A1, p.2.name ≠ anyRow.name := by
      intro p hp
      have hkey := (hAprop p (by rw [hAeq]; exact List.mem_append_left _ hp)).1
      rw [← hkey]
      exact hA1k p hp
    have hA2n : ∀ p ∈ A2, p.2.name ≠ anyRow.name := by
      intro p hp
      have hkey := (hAprop p (by
        rw [hAeq]
        exact List.mem_append_right _ (List.mem_cons_of_mem _ hp))).1
      rw [← hkey]
      exact hA2k p hp
    have hcopy : alLookup (mergeAnyInto A X B) anyRow.name
        = some { anyRow with arch := X } := by
      rw [hAeq]
      exact mergeAnyInto_lookup_new A1 A2 X anyRow hA1n hA2n B hBG
    have hBXlookup : alLookup (promoteAny (bucketRows rows [])) X
        = some (mergeAnyInto A X B) := by
      rw [promoteAny_some hA1, alLookup_mapVal, alLookup_alErase,
        if_neg (fun he => hXne he.symm), hB1]
      rfl
    have hentry : ({ anyRow with arch := X } : GroupEntry)
        ∈ flattenGroups ia (promoteAny (bucketRows rows [])) :=
      mem_flattenGroups.mpr ⟨(X, mergeAnyInto A X B),
        alLookup_eq_some_mem hBXlookup, hpass,
        (anyRow.name, { anyRow with arch := X }),
        alLookup_eq_some_mem hcopy, rfl⟩
    refine ⟨{ anyRow with arch := X }, ?_, rfl, rfl, rfl⟩
    unfold get_group_info
    exact (List.perm_insertionSort groupLE _).mem_iff.mpr hentry

/-- Witness for C6 at the concrete rows rowsW6: group k exists only under
any and is synthesized into i686, the one concrete architecture present. -/
theorem claim_c6_witness :
    (∀ e ∈ get_group_info none rowsW6, e.arch ≠ "any")
    ∧ ∃ e ∈ get_group_info none rowsW6,
        e.name = (GroupEntry.mk "k" "any" 2 5).name ∧ e.arch = "i686" ∧
        e.count = (GroupEntry.mk "k" "any" 2 5).count :=
  ⟨(claim_c6_any_promotion rowsW6 none).1,
   (claim_c6_any_promotion rowsW6 none).2 (GroupEntry.mk "k" "any" 2 5)
     (GroupEntry.mk "h" "i686" 1 9) "i686" (by decide) (by decide) (by decide)
     (by decide) (by decide) (by decide) (by decide)⟩

end Archweb
